import Mathlib

set_option maxHeartbeats 1000000

namespace LabApp

/-! Shallow embedding of `app.py` (lab-report interpreter).

The Python `json` module is modelled faithfully on the fragment the
application can produce and store: JSON values with arbitrary-precision
integer numbers (Python `int`).  Floating-point literals, `NaN` and
`Infinity` are outside the model, and JSON strings denote sequences of
Unicode scalar values (Python strings containing lone surrogates are not
representable).  Python `dict`s preserve insertion order and overwrite
duplicate keys in place, which the model reproduces. -/

/-- JSON values as handled by Python's `json` module (integer fragment).
Objects are ordered association lists, mirroring insertion-ordered dicts. -/
inductive Json where
  | null : Json
  | bool : Bool → Json
  | num : Int → Json
  | str : String → Json
  | arr : List Json → Json
  | obj : List (String × Json) → Json

/-- Indentation padding used by `json.dump(..., indent=4)`. -/
def spaces (n : Nat) : List Char := List.replicate n ' '

/-- Decimal digit characters. -/
def digitChar : Nat → Char
  | 0 => '0' | 1 => '1' | 2 => '2' | 3 => '3' | 4 => '4'
  | 5 => '5' | 6 => '6' | 7 => '7' | 8 => '8' | _ => '9'

/-- Lowercase hexadecimal digit characters, as in Python's `\uXXXX` escapes. -/
def hexDigitChar : Nat → Char
  | 0 => '0' | 1 => '1' | 2 => '2' | 3 => '3' | 4 => '4'
  | 5 => '5' | 6 => '6' | 7 => '7' | 8 => '8' | 9 => '9'
  | 10 => 'a' | 11 => 'b' | 12 => 'c' | 13 => 'd' | 14 => 'e' | _ => 'f'

/-- Decimal representation of a natural number, as Python prints it. -/
def natRepr (n : Nat) : List Char :=
  if n = 0 then ['0'] else ((Nat.digits 10 n).map digitChar).reverse

/-- Decimal representation of a Python `int`. -/
def intRepr (n : Int) : List Char :=
  if n < 0 then '-' :: natRepr n.natAbs else natRepr n.natAbs

/-- Four lowercase hex digits of a code unit, as in `\uXXXX`. -/
def hex4 (n : Nat) : List Char :=
  [hexDigitChar (n / 4096 % 16), hexDigitChar (n / 256 % 16),
   hexDigitChar (n / 16 % 16), hexDigitChar (n % 16)]

/-- Escaping of one character by `json.dumps` with the default
`ensure_ascii=True`: printable ASCII other than quote and backslash is kept,
shorthand escapes cover the usual control characters, everything else becomes
`\uXXXX` (a surrogate pair for astral code points). -/
def escChar (c : Char) : List Char :=
  if c = '"' then ['\\', '"']
  else if c = '\\' then ['\\', '\\']
  else if c = '\n' then ['\\', 'n']
  else if c = '\t' then ['\\', 't']
  else if c = '\r' then ['\\', 'r']
  else if c = '\x08' then ['\\', 'b']
  else if c = '\x0c' then ['\\', 'f']
  else if c.toNat < 0x20 ∨ 0x7e < c.toNat then
    if c.toNat < 0x10000 then '\\' :: 'u' :: hex4 c.toNat
    else ('\\' :: 'u' :: hex4 (0xd800 + (c.toNat - 0x10000) / 0x400)) ++
         ('\\' :: 'u' :: hex4 (0xdc00 + (c.toNat - 0x10000) % 0x400))
  else [c]

/-- Serialization of a JSON string literal. -/
def dumpStr (s : String) : List Char :=
  '"' :: (s.data.flatMap escChar ++ ['"'])

mutual

/-- Serialization of a JSON value by `json.dumps(v, indent=4)` at nesting
depth `d`: containers put every element on its own line indented by
`4 * (d + 1)` spaces and use `", "`-free separators `",\n"` and `": "`. -/
def dumpVal : Nat → Json → List Char
  | _, .null => ['n', 'u', 'l', 'l']
  | _, .bool true => ['t', 'r', 'u', 'e']
  | _, .bool false => ['f', 'a', 'l', 's', 'e']
  | _, .num n => intRepr n
  | _, .str s => dumpStr s
  | _, .arr [] => ['[', ']']
  | d, .arr (x :: xs) =>
      ('[' :: '\n' :: spaces ((d + 1) * 4)) ++
        (dumpVal (d + 1) x ++
          (dumpItemsA (d + 1) xs ++ (('\n' :: spaces (d * 4)) ++ [']'])))
  | _, .obj [] => ['\x7b', '\x7d']
  | d, .obj ((k, v) :: kvs) =>
      ('\x7b' :: '\n' :: spaces ((d + 1) * 4)) ++
        (dumpStr k ++ (':' :: ' ' ::
          (dumpVal (d + 1) v ++
            (dumpItemsO (d + 1) kvs ++ (('\n' :: spaces (d * 4)) ++ ['\x7d'])))))

/-- Serialization of the remaining array items, each preceded by `",\n"` and
the indent for depth `d`. -/
def dumpItemsA : Nat → List Json → List Char
  | _, [] => []
  | d, x :: xs =>
      (',' :: '\n' :: spaces (d * 4)) ++ (dumpVal d x ++ dumpItemsA d xs)

/-- Serialization of the remaining object members. -/
def dumpItemsO : Nat → List (String × Json) → List Char
  | _, [] => []
  | d, (k, v) :: kvs =>
      (',' :: '\n' :: spaces (d * 4)) ++
        (dumpStr k ++ (':' :: ' ' :: (dumpVal d v ++ dumpItemsO d kvs)))

end

/-- Textual output of `json.dumps(v, indent=4)`, which is what
`json.dump(v, f, indent=4)` writes to the file. -/
def json_dumps (v : Json) : String := String.mk (dumpVal 0 v)

/-- JSON whitespace accepted between tokens by `json.loads`. -/
def wsChar (c : Char) : Bool := c = ' ' || c = '\t' || c = '\n' || c = '\r'

/-- Consume leading JSON whitespace. -/
def skipWs : List Char → List Char
  | [] => []
  | c :: cs => if wsChar c then skipWs cs else c :: cs

/-- Value of one hexadecimal digit; `json.loads` accepts both cases. -/
def hexVal (c : Char) : Option Nat :=
  if 48 ≤ c.toNat ∧ c.toNat ≤ 57 then some (c.toNat - 48)
  else if 97 ≤ c.toNat ∧ c.toNat ≤ 102 then some (c.toNat - 87)
  else if 65 ≤ c.toNat ∧ c.toNat ≤ 70 then some (c.toNat - 55)
  else none

/-- Value of a `\uXXXX` escape's four hex digits. -/
def hexQuad (a b c d : Char) : Option Nat :=
  match hexVal a, hexVal b, hexVal c, hexVal d with
  | some x, some y, some z, some w => some (((x * 16 + y) * 16 + z) * 16 + w)
  | _, _, _, _ => none

/-- Single-character string escapes recognized by `json.loads`. -/
def escDecode : Char → Option Char
  | '"' => some '"'
  | '\\' => some '\\'
  | '/' => some '/'
  | 'b' => some '\x08'
  | 'f' => some '\x0c'
  | 'n' => some '\n'
  | 'r' => some '\r'
  | 't' => some '\t'
  | _ => none

/-- Body of a JSON string literal after the opening quote, in strict mode:
raw control characters are rejected, escapes are decoded, and a surrogate
pair of `\uXXXX` escapes is combined into one scalar value.  A lone
surrogate escape is rejected here (Python would produce a string containing
a lone surrogate, which a sequence of Unicode scalar values cannot hold). -/
def parseStringBody : List Char → Option (List Char × List Char)
  | [] => none
  | '"' :: rest => some ([], rest)
  | '\\' :: 'u' :: a :: b :: c :: d :: rest =>
    match hexQuad a b c d with
    | none => none
    | some h1 =>
      if 0xd800 ≤ h1 ∧ h1 < 0xdc00 then
        match rest with
        | '\\' :: 'u' :: e :: f :: g :: h :: rest2 =>
          match hexQuad e f g h with
          | none => none
          | some h2 =>
            if 0xdc00 ≤ h2 ∧ h2 < 0xe000 then
              match parseStringBody rest2 with
              | some (s, r) =>
                  some (Char.ofNat (0x10000 + (h1 - 0xd800) * 0x400 + (h2 - 0xdc00)) :: s, r)
              | none => none
            else none
        | _ => none
      else if 0xdc00 ≤ h1 ∧ h1 < 0xe000 then none
      else
        match parseStringBody rest with
        | some (s, r) => some (Char.ofNat h1 :: s, r)
        | none => none
  | '\\' :: e :: rest =>
    match escDecode e with
    | some c =>
      match parseStringBody rest with
      | some (s, r) => some (c :: s, r)
      | none => none
    | none => none
  | c :: rest =>
    if c.toNat < 0x20 then none
    else
      match parseStringBody rest with
      | some (s, r) => some (c :: s, r)
      | none => none

/-- Decimal digit test. -/
def isDigitChar (c : Char) : Bool := 48 ≤ c.toNat && c.toNat ≤ 57

/-- Split off the leading run of decimal digits. -/
def digitSpan : List Char → List Char × List Char
  | [] => ([], [])
  | c :: cs =>
    if isDigitChar c then
      let p := digitSpan cs
      (c :: p.1, p.2)
    else ([], c :: cs)

/-- Numeric value of a digit character. -/
def digitVal (c : Char) : Nat := c.toNat - 48

/-- Value of a most-significant-first digit string. -/
def natOfDs (cs : List Char) : Nat := cs.foldl (fun a c => 10 * a + digitVal c) 0

/-- Leading-zero test: the JSON grammar forbids `01`. -/
def leadZero (cs : List Char) : Bool :=
  match cs with
  | c :: _ :: _ => c == '0'
  | _ => false

/-- After an integer literal, a fraction or exponent marker would make the
token a float, which is outside the model. -/
def numEndBad (cs : List Char) : Bool :=
  match cs with
  | c :: _ => c = '.' || c = 'e' || c = 'E'
  | [] => false

/-- Consume an expected literal character sequence, as the scanner does for
the keywords `null`, `true` and `false`. -/
def expectChars : List Char → List Char → Option (List Char)
  | [], r => some r
  | e :: es, c :: r => if c = e then expectChars es r else none
  | _ :: _, [] => none

/-- Python `dict` insertion: an existing key is overwritten in place,
otherwise the pair is appended. -/
def dictInsert (kvs : List (String × Json)) (k : String) (v : Json) :
    List (String × Json) :=
  if kvs.any (fun p => p.1 == k) then
    kvs.map (fun p => if p.1 == k then (k, v) else p)
  else kvs ++ [(k, v)]

/-- The dict built from parsed object members, as `dict(pairs)` does:
duplicate keys keep the last value at the first occurrence's position. -/
def dictOfPairs (pairs : List (String × Json)) : List (String × Json) :=
  pairs.foldl (fun acc p => dictInsert acc p.1 p.2) []

mutual

/-- Fuel-indexed recursive-descent parser for one JSON value, mirroring
`json.loads`: skip whitespace, then dispatch on the first character. -/
def parseVal : Nat → List Char → Option (Json × List Char)
  | 0, _ => none
  | f + 1, cs => parseCore f (skipWs cs)

/-- Dispatch on the first non-whitespace character of a JSON value. -/
def parseCore : Nat → List Char → Option (Json × List Char)
  | 0, _ => none
  | _ + 1, [] => none
  | f + 1, c :: r =>
    if c = 'n' then
      match expectChars ['u', 'l', 'l'] r with
      | some r2 => some (.null, r2)
      | none => none
    else if c = 't' then
      match expectChars ['r', 'u', 'e'] r with
      | some r2 => some (.bool true, r2)
      | none => none
    else if c = 'f' then
      match expectChars ['a', 'l', 's', 'e'] r with
      | some r2 => some (.bool false, r2)
      | none => none
    else if c = '"' then
      match parseStringBody r with
      | some (s, r2) => some (.str (String.mk s), r2)
      | none => none
    else if c = '-' then
      match digitSpan r with
      | ([], _) => none
      | (ds, rest) =>
        if leadZero ds || numEndBad rest then none
        else some (.num (-(natOfDs ds : Int)), rest)
    else if isDigitChar c then
      let p := digitSpan r
      if leadZero (c :: p.1) || numEndBad p.2 then none
      else some (.num ((natOfDs (c :: p.1) : Int)), p.2)
    else if c = '[' then
      if (skipWs r).head? = some ']' then some (.arr [], (skipWs r).tail)
      else
        match parseVal f r with
        | some (v, r1) =>
          match parseArrTail f r1 [v] with
          | some (vs, r2) => some (.arr vs, r2)
          | none => none
        | none => none
    else if c = '\x7b' then
      if (skipWs r).head? = some '\x7d' then some (.obj [], (skipWs r).tail)
      else
        match parseMember f r with
        | some (kv, r1) =>
          match parseObjTail f r1 [kv] with
          | some (kvs, r2) => some (.obj (dictOfPairs kvs), r2)
          | none => none
        | none => none
    else none

/-- Remaining array items: a comma followed by a value, until `]`. -/
def parseArrTail : Nat → List Char → List Json → Option (List Json × List Char)
  | 0, _, _ => none
  | f + 1, cs, acc =>
    match skipWs cs with
    | ',' :: r =>
      match parseVal f r with
      | some (v, r1) => parseArrTail f r1 (acc ++ [v])
      | none => none
    | ']' :: r => some (acc, r)
    | _ => none

/-- One object member: a string key, a colon, and a value. -/
def parseMember : Nat → List Char → Option ((String × Json) × List Char)
  | 0, _ => none
  | f + 1, cs =>
    match skipWs cs with
    | '"' :: r =>
      match parseStringBody r with
      | some (s, r1) =>
        match skipWs r1 with
        | ':' :: r2 =>
          match parseVal f r2 with
          | some (v, r3) => some ((String.mk s, v), r3)
          | none => none
        | _ => none
      | none => none
    | _ => none

/-- Remaining object members: a comma followed by a member, until the
closing brace. -/
def parseObjTail : Nat → List Char → List (String × Json) →
    Option (List (String × Json) × List Char)
  | 0, _, _ => none
  | f + 1, cs, acc =>
    match skipWs cs with
    | ',' :: r =>
      match parseMember f r with
      | some (kv, r1) => parseObjTail f r1 (acc ++ [kv])
      | none => none
    | '\x7d' :: r => some (acc, r)
    | _ => none

end

/-- Python `json.loads` on the modelled fragment: parse one value and
require only whitespace to remain.  The fuel `length + 1` is enough for any
parse, since every recursive step consumes input. -/
def json_loads (s : String) : Option Json :=
  match parseVal (s.data.length + 1) s.data with
  | some (v, rest) => if skipWs rest = [] then some v else none
  | none => none

/-- Python exceptions arising on the modelled code paths. -/
inductive PyExc where
  | jsonDecodeError : PyExc
  | openaiError : PyExc
  | typeError : PyExc
  | keyError : PyExc
  | attrError : PyExc
  | indexError : PyExc
deriving Repr, DecidableEq

/-- Whitespace trimmed by Python's `str.strip()` (ASCII fragment; the
application's inputs are modelled as sequences of such characters). -/
def pyWsChar (c : Char) : Bool :=
  c = ' ' || c = '\t' || c = '\n' || c = '\r' || c = '\x0b' || c = '\x0c'

/-- Python `str.strip()`: drop leading and trailing whitespace. -/
def pyStrip (cs : List Char) : List Char :=
  ((cs.dropWhile pyWsChar).reverse.dropWhile pyWsChar).reverse

/-- One page of the opened document: the text `page.get_text()` yields and
the text `pytesseract.image_to_string` would produce from the page's
rendered image (the rasterizer and recognizer are external collaborators,
so the per-page recognition output is part of the input). -/
structure Page where
  nativeText : List Char
  ocrText : List Char

/-- Page loop of `extract_text_from_pdf`, carrying the index of the current
page; returns the accumulated text and the indices of pages for which the
recognizer was invoked (its call trace), in order. -/
def extractAux : Nat → List Page → List Char × List Nat
  | _, [] => ([], [])
  | i, p :: ps =>
    let rest := extractAux (i + 1) ps
    let pt := pyStrip p.nativeText
    if pt ≠ [] then (pt ++ '\n' :: rest.1, rest.2)
    else (p.ocrText ++ '\n' :: rest.1, i :: rest.2)

/-- `extract_text_from_pdf`: per page, use the stripped native text when it
is non-empty, else fall back to recognition; append a newline after each
page; strip the final result.  Also returns the recognizer call trace. -/
def extract_text_from_pdf (doc : List Page) : List Char × List Nat :=
  let r := extractAux 0 doc
  (pyStrip r.1, r.2)

/-- A chat-completions request as assembled by `analyze_lab_report`. -/
structure ChatRequest where
  model : String
  messages : List (String × String)
  max_tokens : Nat

/-- The instruction prompt of `analyze_lab_report`, with the lab-report text
embedded verbatim at the end. -/
def mkPrompt (text : String) : String :=
  "\nYou are a medical lab report analyzer. Extract all tests, values, and reference ranges.\nFlag each as Low/Normal/High, and generate overall health status and doctor\x27s notes.\nReturn JSON strictly in this format:\n\n\x7b\n    \"results\": [\n        \x7b\n            \"test\": \"Hemoglobin\",\n            \"value\": \"13.5 g/dL\",\n            \"range\": \"13-17 g/dL\",\n            \"status\": \"Normal\",\n            \"analysis\": \"Within normal range\"\n        \x7d\n    ],\n    \"overall_status\": \"Healthy\",\n    \"doctor_notes\": \"All parameters are within normal limits.\"\n\x7d\n\nLab report text:\n"
    ++ text ++ "\n"

/-- The single request `analyze_lab_report` sends: fixed model identifier,
one user message, 800-token completion cap. -/
def analyzeReq (text : String) : ChatRequest :=
  ⟨"gpt-3.5-turbo", [("user", mkPrompt text)], 800⟩

/-- Truthiness test of `if not client.api_key:` — the credential is absent
or the empty string. -/
def pyFalsyKey : Option String → Bool
  | none => true
  | some s => s.isEmpty

/-- The missing-credential result value. -/
def noKeyJson : Json := Json.obj [("error", Json.str "No API key provided")]

/-- The parse-failure result value, carrying the raw reply. -/
def parseFailJson (reply : String) : Json :=
  Json.obj [("error", Json.str "Failed to parse GPT JSON"),
            ("raw", Json.str reply)]

/-- `analyze_lab_report(text)`.  `apiKey` models the configured credential,
`svc` the external chat-completions service (for a request it either raises
or returns the reply's textual content).  The prompt is built first as in
the source; the service call sits outside the `try`, so its exception
escapes, while `json.loads` failures are caught.  The second component is
the list of outbound service calls performed. -/
def analyze_lab_report (apiKey : Option String)
    (svc : ChatRequest → Except PyExc String) (text : String) :
    Except PyExc Json × List ChatRequest :=
  let req := analyzeReq text
  if pyFalsyKey apiKey then (.ok noKeyJson, [])
  else
    match svc req with
    | .error e => (.error e, [req])
    | .ok reply =>
      match json_loads reply with
      | some v => (.ok v, [req])
      | none => (.ok (parseFailJson reply), [req])

/-- `load_reports()`: a missing file gives `[]`; an existing file is parsed
by `json.load`, whose decode error propagates (nothing catches it).  The
store file is modelled by its optional contents. -/
def load_reports (fs : Option String) : Except PyExc Json :=
  match fs with
  | none => .ok (Json.arr [])
  | some s =>
    match json_loads s with
    | some v => .ok v
    | none => .error .jsonDecodeError

/-- `save_reports(reports)`: serialize the whole store with `indent=4` and
overwrite the file; returns the new file contents. -/
def save_reports (reports : Json) : Option String :=
  some (json_dumps reports)

/-- Test whether `needle` occurs at the front of `hay`. -/
def matchesAt : List Char → List Char → Bool
  | [], _ => true
  | _ :: _, [] => false
  | a :: as, b :: bs => a == b && matchesAt as bs

/-- Contiguous-substring test, for Python `in` on strings. -/
def substrOf (needle hay : List Char) : Bool :=
  match hay with
  | [] => matchesAt needle []
  | _ :: t => matchesAt needle hay || substrOf needle t

/-- Python `k in v` for a string `k`: key test on a dict, membership on a
list, substring test on a string, `TypeError` on non-containers. -/
def pyIn (k : String) (v : Json) : Except PyExc Bool :=
  match v with
  | .obj kvs => .ok (kvs.any (fun p => p.1 == k))
  | .arr xs => .ok (xs.any (fun x => match x with | .str s => s == k | _ => false))
  | .str s => .ok (substrOf k.data s.data)
  | _ => .error .typeError

/-- Python `v[k]` for a string key `k`: dict lookup (`KeyError` when
missing), `TypeError` on lists, strings and non-containers. -/
def pyGetItem (v : Json) (k : String) : Except PyExc Json :=
  match v with
  | .obj kvs =>
    match kvs.find? (fun p => p.1 == k) with
    | some p => .ok p.2
    | none => .error .keyError
  | _ => .error .typeError

/-- Python `len(v)`: defined for lists, dicts and strings. -/
def pyLen (v : Json) : Except PyExc Nat :=
  match v with
  | .arr xs => .ok xs.length
  | .obj kvs => .ok kvs.length
  | .str s => .ok s.length
  | _ => .error .typeError

/-- Python `v[i]` for an integer `i`: list and string indexing with
negative-index wrapping, `KeyError` on dicts (the integer key is never
present in a parsed JSON object), `TypeError` otherwise. -/
def pySubscriptInt (v : Json) (i : Int) : Except PyExc Json :=
  match v with
  | .arr xs =>
    let j := if i < 0 then i + xs.length else i
    if 0 ≤ j ∧ j < xs.length then .ok (xs.getD j.toNat Json.null)
    else .error .indexError
  | .str s =>
    let j := if i < 0 then i + s.length else i
    if 0 ≤ j ∧ j < s.length then .ok (.str (String.mk [s.data.getD j.toNat ' ']))
    else .error .indexError
  | .obj _ => .error .keyError
  | _ => .error .typeError

/-- Python iteration over `v`: list elements, string characters, dict keys;
`TypeError` otherwise. -/
def pyIter (v : Json) : Except PyExc (List Json) :=
  match v with
  | .arr xs => .ok xs
  | .str s => .ok (s.data.map (fun c => Json.str (String.mk [c])))
  | .obj kvs => .ok (kvs.map (fun p => Json.str p.1))
  | _ => .error .typeError

/-- Python `v.get(k, dflt)`: only dicts have `get` (`AttributeError`
otherwise). -/
def pyDictGet (v : Json) (k : String) (dflt : Json) : Except PyExc Json :=
  match v with
  | .obj kvs => .ok (((kvs.find? (fun p => p.1 == k)).map Prod.snd).getD dflt)
  | _ => .error .attrError

mutual

/-- Python `repr` on modelled JSON values, which f-string interpolation
falls back to for containers.  Quoting inside `repr` is simplified to the
common cases; no claim depends on its corner cases. -/
def pyRepr : Json → String
  | .null => "None"
  | .bool true => "True"
  | .bool false => "False"
  | .num n => String.mk (intRepr n)
  | .str s => "\x27" ++ s ++ "\x27"
  | .arr xs => "[" ++ pyReprItems xs ++ "]"
  | .obj kvs => "\x7b" ++ pyReprMembers kvs ++ "\x7d"

/-- Comma-separated `repr`s of list elements. -/
def pyReprItems : List Json → String
  | [] => ""
  | [x] => pyRepr x
  | x :: xs => pyRepr x ++ ", " ++ pyReprItems xs

/-- Comma-separated `repr`s of dict members. -/
def pyReprMembers : List (String × Json) → String
  | [] => ""
  | [(k, v)] => "\x27" ++ k ++ "\x27: " ++ pyRepr v
  | (k, v) :: kvs => "\x27" ++ k ++ "\x27: " ++ pyRepr v ++ ", " ++ pyReprMembers kvs

end

/-- Python `str()` as applied by f-string interpolation. -/
def pyStr : Json → String
  | .str s => s
  | v => pyRepr v

/-- The record `upload` assembles for one analysis outcome. -/
def mkRecord (now fileName : String) (analysis : Json) : Json :=
  Json.obj [("timestamp", Json.str now), ("file_name", Json.str fileName),
            ("analysis", analysis)]

/-- Result of the `upload` route body after the web-layer file checks: the
final data-file contents, the outbound service calls, and either the JSON
body answered to the client or the exception that escaped. -/
structure UploadOut where
  fs : Option String
  calls : List ChatRequest
  response : Except PyExc Json

/-- Orchestration of one upload (the `upload` route after its file checks):
`text` is the already-extracted document text (extraction succeeded), `now`
the formatted current timestamp.  Analyze, build the record, load the
store, append the record, save, then answer the analysis itself when it has
a `"results"` key and the `Analysis failed` wrapper around it otherwise.
An exception from the analysis or the load escapes before anything is
persisted; `reports.append` on a non-list store raises `AttributeError`. -/
def upload (text : String) (apiKey : Option String)
    (svc : ChatRequest → Except PyExc String)
    (fileName now : String) (fs : Option String) : UploadOut :=
  let a := analyze_lab_report apiKey svc text
  match a.1 with
  | .error e => ⟨fs, a.2, .error e⟩
  | .ok analysis =>
    let record := mkRecord now fileName analysis
    match load_reports fs with
    | .error e => ⟨fs, a.2, .error e⟩
    | .ok reports =>
      match reports with
      | .arr l =>
        let fs2 := save_reports (Json.arr (l ++ [record]))
        match pyIn "results" analysis with
        | .error e => ⟨fs2, a.2, .error e⟩
        | .ok true => ⟨fs2, a.2, .ok analysis⟩
        | .ok false =>
          ⟨fs2, a.2,
            .ok (Json.obj [("error", Json.str "Analysis failed"), ("raw", analysis)])⟩
      | _ => ⟨fs, a.2, .error .attrError⟩

/-- Outcome of the bounds-checked record fetch at the top of the `download`
route — the `renderableView` contract: the 400 `Invalid report index`
answer or the fetched record. -/
inductive Fetched where
  | invalidIndex : Fetched
  | record : Json → Fetched

/-- Record fetch of the `download` route: load the store, answer the 400
rejection when the index is negative or not below the store length, else
subscript.  The second component is the data file after the call; no branch
writes it. -/
def renderableView (fs : Option String) (index : Int) :
    Except PyExc Fetched × Option String :=
  match load_reports fs with
  | .error e => (.error e, fs)
  | .ok reports =>
    match pyLen reports with
    | .error e => (.error e, fs)
    | .ok n =>
      if index < 0 ∨ (n : Int) ≤ index then (.ok .invalidIndex, fs)
      else
        match pySubscriptInt reports index with
        | .ok rep => (.ok (.record rep), fs)
        | .error e => (.error e, fs)

/-- Texts of the two paragraphs built for one test item. -/
def storyItemParas (item : Json) : Except PyExc (List String) := do
  let t ← pyGetItem item "test"
  let v ← pyGetItem item "value"
  let r ← pyGetItem item "range"
  let s ← pyGetItem item "status"
  let a ← pyGetItem item "analysis"
  pure [pyStr t ++ ": " ++ pyStr v ++ " (" ++ pyStr r ++ ") - " ++ pyStr s,
        "Analysis: " ++ pyStr a]

/-- Paragraph texts of the PDF story `download` builds for one record:
title, date line, then per-test lines followed by the overall status and
doctor notes lines when the analysis has a `"results"` key.  Spacers carry
no text and the rendering collaborator itself is external. -/
def buildStory (report : Json) : Except PyExc (List String) := do
  let ts ← pyGetItem report "timestamp"
  let analysis ← pyGetItem report "analysis"
  let hasResults ← pyIn "results" analysis
  let base := ["Lab Report Analysis", "Date: " ++ pyStr ts]
  if hasResults then
    let rs ← pyGetItem analysis "results"
    let items ← pyIter rs
    let paras ← items.mapM storyItemParas
    let ov ← pyDictGet analysis "overall_status" (Json.str "")
    let dn ← pyDictGet analysis "doctor_notes" (Json.str "")
    pure (base ++ paras.flatten ++
      ["Overall Status: " ++ pyStr ov, "Doctor Notes: " ++ pyStr dn])
  else
    pure base

/-- Response of the `download` route: the 400 rejection or the rendered
file's paragraph texts. -/
inductive DlResponse where
  | invalidIndex : DlResponse
  | pdfFile : List String → DlResponse

/-- The `download` route: fetch the record, then build and send the rendered
document.  The data file is threaded through every step unchanged, since no
branch writes it. -/
def download (fs : Option String) (index : Int) :
    Except PyExc DlResponse × Option String :=
  let r := renderableView fs index
  (match r.1 with
   | .error e => .error e
   | .ok .invalidIndex => .ok .invalidIndex
   | .ok (.record rep) =>
     match buildStory rep with
     | .ok story => .ok (.pdfFile story)
     | .error e => .error e,
   r.2)

/-- Lookup of a key in an ordered association list of members. -/
def jLookup (kvs : List (String × Json)) (k : String) : Option Json :=
  (kvs.find? (fun p => p.1 == k)).map Prod.snd

/-- Test for an optional value being a string. -/
def isStrOpt : Option Json → Bool
  | some (.str _) => true
  | _ => false

/-- Test for an optional value being a non-empty string. -/
def isNonEmptyStrOpt : Option Json → Bool
  | some (.str s) => !s.isEmpty
  | _ => false

/-- Modelled from the spec (section 3, `TestResult`): a status is one of the
three enumerated values. -/
def specStatusOk : Option Json → Bool
  | some (.str s) => s == "Low" || s == "Normal" || s == "High"
  | _ => false

/-- Modelled from the spec (section 3): the `TestResult` shape — `test`,
`value`, `range` non-empty strings, `status` enumerated, `analysis` a
string. -/
def specTestResultShape (v : Json) : Bool :=
  match v with
  | .obj kvs =>
    isNonEmptyStrOpt (jLookup kvs "test") && isNonEmptyStrOpt (jLookup kvs "value") &&
    isNonEmptyStrOpt (jLookup kvs "range") && specStatusOk (jLookup kvs "status") &&
    isStrOpt (jLookup kvs "analysis")
  | _ => false

/-- Modelled from the spec (section 3): the `AnalysisReport` success shape —
a `results` sequence of `TestResult`s plus string `overall_status` and
`doctor_notes`. -/
def specSuccessShape (v : Json) : Bool :=
  match v with
  | .obj kvs =>
    (match jLookup kvs "results" with
     | some (.arr xs) => xs.all specTestResultShape
     | _ => false) &&
    isStrOpt (jLookup kvs "overall_status") && isStrOpt (jLookup kvs "doctor_notes")
  | _ => false

/-- Modelled from the spec (section 3): the `ReportRecord` shape. -/
def specReportRecordShape (v : Json) : Bool :=
  match v with
  | .obj kvs =>
    isStrOpt (jLookup kvs "timestamp") && isStrOpt (jLookup kvs "file_name") &&
    (jLookup kvs "analysis").isSome
  | _ => false

/-- Modelled from the spec (section 3): the persisted store shape, a
sequence of `ReportRecord`s. -/
def specStoreShape (v : Json) : Bool :=
  match v with
  | .arr xs => xs.all specReportRecordShape
  | _ => false

/-- Absence of duplicate keys in a member list. -/
def noDupKeys : List (String × Json) → Bool
  | [] => true
  | (k, _) :: kvs => !(kvs.any (fun p => p.1 == k)) && noDupKeys kvs

mutual

/-- Well-formedness of a JSON value as a Python value: object keys are
pairwise distinct, as they necessarily are for any Python `dict`. -/
def wfJson : Json → Bool
  | .null => true
  | .bool _ => true
  | .num _ => true
  | .str _ => true
  | .arr xs => wfItems xs
  | .obj kvs => noDupKeys kvs && wfMembers kvs

/-- Well-formedness of every element. -/
def wfItems : List Json → Bool
  | [] => true
  | x :: xs => wfJson x && wfItems xs

/-- Well-formedness of every member value. -/
def wfMembers : List (String × Json) → Bool
  | [] => true
  | m :: ms => wfJson m.2 && wfMembers ms

end

mutual

/-- Fuel needed by `parseCore` on the dump of a value. -/
def needCore : Json → Nat
  | .null => 1
  | .bool _ => 1
  | .num _ => 1
  | .str _ => 1
  | .arr [] => 1
  | .arr (x :: xs) => 2 + needCore x + needTailA xs
  | .obj [] => 1
  | .obj ((_, v) :: kvs) => 3 + needCore v + needTailO kvs

/-- Fuel needed by `parseArrTail` on the dump of the remaining items. -/
def needTailA : List Json → Nat
  | [] => 1
  | y :: ys => 2 + needCore y + needTailA ys

/-- Fuel needed by `parseObjTail` on the dump of the remaining members. -/
def needTailO : List (String × Json) → Nat
  | [] => 1
  | (_, v) :: kvs => 3 + needCore v + needTailO kvs

end

/-! Lemmas: whitespace, digits, hex escapes, and the string-literal
round-trip. -/

/-- Lists consisting solely of JSON whitespace. -/
def wsOnly (l : List Char) : Prop := ∀ c ∈ l, wsChar c = true

/-- Suffixes a dumped integer literal may legally be followed by: nothing,
or a character that neither extends the digit run nor turns it into a
float literal. -/
def numOk : List Char → Prop
  | [] => True
  | c :: _ => isDigitChar c = false ∧ c ≠ '.' ∧ c ≠ 'e' ∧ c ≠ 'E'

theorem skipWs_cons_neg {c : Char} (h : wsChar c = false) (l : List Char) :
    skipWs (c :: l) = c :: l := by
  simp [skipWs, h]

theorem skipWs_append {w : List Char} (h : wsOnly w) (l : List Char) :
    skipWs (w ++ l) = skipWs l := by
  induction w with
  | nil => rfl
  | cons c t ih =>
    have hc : wsChar c = true := h c (by simp)
    simp only [List.cons_append, skipWs, hc, if_true]
    exact ih (fun x hx => h x (by simp [hx]))

theorem spaces_wsOnly (n : Nat) : wsOnly (spaces n) := by
  intro c hc
  have : c = ' ' := List.eq_of_mem_replicate hc
  simp [this, wsChar]

theorem wsOnly_cons {c : Char} {l : List Char} (hc : wsChar c = true)
    (hl : wsOnly l) : wsOnly (c :: l) := by
  intro x hx
  rcases List.mem_cons.mp hx with h | h
  · simpa [h] using hc
  · exact hl x h

theorem parseVal_ws {w : List Char} (h : wsOnly w) (f : Nat) (cs : List Char) :
    parseVal f (w ++ cs) = parseVal f cs := by
  cases f with
  | zero => rfl
  | succ f => simp [parseVal, skipWs_append h]

theorem digitChar_isDigit {d : Nat} (h : d < 10) :
    isDigitChar (digitChar d) = true := by
  interval_cases d <;> rfl

theorem digitVal_digitChar {d : Nat} (h : d < 10) :
    digitVal (digitChar d) = d := by
  interval_cases d <;> rfl

theorem digitChar_ne_zero {d : Nat} (h : d < 10) (h0 : d ≠ 0) :
    digitChar d ≠ '0' := by
  interval_cases d <;> simp_all <;> decide

theorem natRepr_ne_nil (n : Nat) : natRepr n ≠ [] := by
  unfold natRepr
  by_cases h : n = 0
  · simp [h]
  · have : Nat.digits 10 n ≠ [] := Nat.digits_ne_nil_iff_ne_zero.mpr h
    simp [h]
    intro hc
    exact this hc

theorem natRepr_all_digits (n : Nat) :
    ∀ c ∈ natRepr n, isDigitChar c = true := by
  intro c hc
  unfold natRepr at hc
  by_cases h : n = 0
  · simp [h] at hc
    simp [hc]; rfl
  · simp [h] at hc
    obtain ⟨d, hd, rfl⟩ := hc
    exact digitChar_isDigit (Nat.digits_lt_base (by norm_num) hd)

theorem natRepr_no_leadZero (n : Nat) : leadZero (natRepr n) = false := by
  by_cases h : n = 0
  · simp [h, natRepr, leadZero]
  · unfold natRepr
    rw [if_neg h]
    have hnil : Nat.digits 10 n ≠ [] := Nat.digits_ne_nil_iff_ne_zero.mpr h
    have hmap : (Nat.digits 10 n).map digitChar ≠ [] := by simp [hnil]
    have hhd : ((Nat.digits 10 n).map digitChar).reverse.head? =
        some (digitChar ((Nat.digits 10 n).getLast hnil)) := by
      rw [List.head?_reverse, List.getLast?_eq_getLast _ hmap, List.getLast_map]
    have hne : digitChar ((Nat.digits 10 n).getLast hnil) ≠ '0' :=
      digitChar_ne_zero (Nat.digits_lt_base (by norm_num) (List.getLast_mem hnil))
        (Nat.getLast_digit_ne_zero 10 h)
    rcases hr : ((Nat.digits 10 n).map digitChar).reverse with _ | ⟨c, t⟩
    · simp [leadZero]
    · rcases t with _ | ⟨c2, t2⟩
      · simp [leadZero]
      · rw [hr] at hhd
        simp at hhd
        simp [leadZero, hhd, hne]

theorem foldl_digits_reverse (ds : List Nat) (hds : ∀ d ∈ ds, d < 10) :
    ∀ a : Nat, ((ds.map digitChar).reverse).foldl (fun a c => 10 * a + digitVal c) a =
      a * 10 ^ ds.length + Nat.ofDigits 10 ds := by
  induction ds with
  | nil => intro a; simp [Nat.ofDigits]
  | cons d tl ih =>
    intro a
    have hd : d < 10 := hds d (by simp)
    have htl : ∀ x ∈ tl, x < 10 := fun x hx => hds x (by simp [hx])
    simp only [List.map_cons, List.reverse_cons, List.foldl_append, List.foldl_cons,
      List.foldl_nil]
    rw [ih htl a]
    rw [digitVal_digitChar hd]
    simp [Nat.ofDigits_cons, Nat.pow_succ]
    ring

theorem natOfDs_natRepr (n : Nat) : natOfDs (natRepr n) = n := by
  by_cases h : n = 0
  · simp [h, natRepr, natOfDs, digitVal]
  · unfold natRepr natOfDs
    rw [if_neg h, foldl_digits_reverse _ (fun d hd => Nat.digits_lt_base (by norm_num) hd)]
    simp [Nat.ofDigits_digits]

theorem digitSpan_append {a : List Char} (ha : ∀ c ∈ a, isDigitChar c = true)
    {b : List Char} (hb : numOk b) : digitSpan (a ++ b) = (a, b) := by
  induction a with
  | nil =>
    simp only [List.nil_append]
    cases b with
    | nil => rfl
    | cons c t =>
      obtain ⟨h1, _⟩ := hb
      simp [digitSpan, h1]
  | cons c t ih =>
    have hc : isDigitChar c = true := ha c (by simp)
    have ht := ih (fun x hx => ha x (by simp [hx]))
    simp [digitSpan, hc, ht]

theorem numEndBad_of_numOk {b : List Char} (hb : numOk b) : numEndBad b = false := by
  cases b with
  | nil => rfl
  | cons c t =>
    obtain ⟨_, h2, h3, h4⟩ := hb
    simp [numEndBad, h2, h3, h4]

theorem hexVal_hexDigitChar {d : Nat} (h : d < 16) :
    hexVal (hexDigitChar d) = some d := by
  interval_cases d <;> rfl

theorem hexQuad_hex4 {n : Nat} (h : n < 65536) :
    hexQuad (hexDigitChar (n / 4096 % 16)) (hexDigitChar (n / 256 % 16))
      (hexDigitChar (n / 16 % 16)) (hexDigitChar (n % 16)) = some n := by
  rw [hexQuad, hexVal_hexDigitChar (Nat.mod_lt _ (by norm_num)),
    hexVal_hexDigitChar (Nat.mod_lt _ (by norm_num)),
    hexVal_hexDigitChar (Nat.mod_lt _ (by norm_num)),
    hexVal_hexDigitChar (Nat.mod_lt _ (by norm_num))]
  simp only [Option.some.injEq]
  omega

theorem char_valid_range (c : Char) :
    c.toNat < 0xd800 ∨ (0xdfff < c.toNat ∧ c.toNat < 0x110000) := c.valid


theorem parseStringBody_esc : ∀ (cs rest : List Char),
    parseStringBody (cs.flatMap escChar ++ ('"' :: rest)) = some (cs, rest)
  | [], rest => by simp [parseStringBody]
  | c :: cs, rest => by
    have ih := parseStringBody_esc cs rest
    have hv := char_valid_range c
    rw [List.flatMap_cons, List.append_assoc]
    by_cases h1 : c = '"'
    · subst h1; simp [escChar, parseStringBody, escDecode, ih]
    by_cases h2 : c = '\\'
    · subst h2; simp [escChar, parseStringBody, escDecode, ih]
    by_cases h3 : c = '\n'
    · subst h3; simp [escChar, parseStringBody, escDecode, ih]
    by_cases h4 : c = '\t'
    · subst h4; simp [escChar, parseStringBody, escDecode, ih]
    by_cases h5 : c = '\r'
    · subst h5; simp [escChar, parseStringBody, escDecode, ih]
    by_cases h6 : c = '\x08'
    · subst h6; simp [escChar, parseStringBody, escDecode, ih]
    by_cases h7 : c = '\x0c'
    · subst h7; simp [escChar, parseStringBody, escDecode, ih]
    by_cases h8 : c.toNat < 0x20 ∨ 0x7e < c.toNat
    · rw [escChar]
      rw [if_neg h1, if_neg h2, if_neg h3, if_neg h4, if_neg h5, if_neg h6, if_neg h7,
        if_pos h8]
      by_cases hlt : c.toNat < 0x10000
      · -- single \uXXXX escape; the code unit is no surrogate since c is a scalar
        rw [if_pos hlt]
        simp only [hex4, List.cons_append, List.nil_append]
        rw [parseStringBody]
        · simp only [hexQuad_hex4 (show c.toNat < 65536 by omega)]
          rw [if_neg (by omega), if_neg (by omega)]
          simp only [ih]
          rw [Char.ofNat_toNat]
      · -- astral code point: a surrogate pair of \uXXXX escapes
        rw [if_neg hlt]
        simp only [hex4, List.cons_append, List.nil_append, List.append_assoc]
        rw [parseStringBody]
        · simp only [hexQuad_hex4
            (show 0xd800 + (c.toNat - 0x10000) / 0x400 < 65536 by omega)]
          rw [if_pos (by constructor <;> omega)]
          simp only [hexQuad_hex4
            (show 0xdc00 + (c.toNat - 0x10000) % 0x400 < 65536 by omega)]
          rw [if_pos (by constructor <;> omega)]
          simp only [ih]
          have harg : 0x10000 + (0xd800 + (c.toNat - 0x10000) / 0x400 - 0xd800) * 0x400 +
              (0xdc00 + (c.toNat - 0x10000) % 0x400 - 0xdc00) = c.toNat := by omega
          rw [harg, Char.ofNat_toNat]
    · -- printable ASCII character kept verbatim
      rw [escChar]
      rw [if_neg h1, if_neg h2, if_neg h3, if_neg h4, if_neg h5, if_neg h6, if_neg h7,
        if_neg h8]
      simp only [List.cons_append, List.nil_append]
      rw [parseStringBody]
      · rw [if_neg (by omega)]
        simp only [ih]
      · exact fun h => absurd h h1
      · exact fun a b c1 d r h _ => absurd h h2
      · exact fun e r h _ => absurd h h2



theorem char_ne_of_toNat_ne {a b : Char} (h : a.toNat ≠ b.toNat) : a ≠ b :=
  fun he => h (he ▸ rfl)

theorem isDigitChar_iff {c : Char} :
    isDigitChar c = true ↔ 48 ≤ c.toNat ∧ c.toNat ≤ 57 := by
  simp [isDigitChar]

theorem wsChar_cases {c : Char} (h : wsChar c = true) :
    c.toNat = 32 ∨ c.toNat = 9 ∨ c.toNat = 10 ∨ c.toNat = 13 := by
  simp [wsChar] at h
  rcases h with ((h | h) | h) | h <;> subst h <;> simp

theorem wsChar_numOk {c : Char} (h : wsChar c = true) (z : List Char) :
    numOk (c :: z) := by
  have hc := wsChar_cases h
  refine ⟨?_, ?_, ?_, ?_⟩
  · rw [Bool.eq_false_iff]
    intro hd
    have := isDigitChar_iff.mp hd
    omega
  · exact char_ne_of_toNat_ne (show c.toNat ≠ 46 by omega)
  · exact char_ne_of_toNat_ne (show c.toNat ≠ 101 by omega)
  · exact char_ne_of_toNat_ne (show c.toNat ≠ 69 by omega)

theorem digit_head_facts {c : Char} (h : isDigitChar c = true) :
    c ≠ 'n' ∧ c ≠ 't' ∧ c ≠ 'f' ∧ c ≠ '"' ∧ c ≠ '-' ∧ wsChar c = false ∧
      c ≠ ']' ∧ c ≠ '\x7d' ∧ c ≠ '[' ∧ c ≠ '\x7b' := by
  have hd := isDigitChar_iff.mp h
  refine ⟨char_ne_of_toNat_ne (show c.toNat ≠ 110 by omega),
    char_ne_of_toNat_ne (show c.toNat ≠ 116 by omega),
    char_ne_of_toNat_ne (show c.toNat ≠ 102 by omega),
    char_ne_of_toNat_ne (show c.toNat ≠ 34 by omega),
    char_ne_of_toNat_ne (show c.toNat ≠ 45 by omega), ?_,
    char_ne_of_toNat_ne (show c.toNat ≠ 93 by omega),
    char_ne_of_toNat_ne (show c.toNat ≠ 125 by omega),
    char_ne_of_toNat_ne (show c.toNat ≠ 91 by omega),
    char_ne_of_toNat_ne (show c.toNat ≠ 123 by omega)⟩
  rw [Bool.eq_false_iff]
  intro hw
  have := wsChar_cases hw
  omega

theorem head_lit_ok {c : Char} (t : List Char)
    (h : (wsChar c = false ∧ c ≠ ']' ∧ c ≠ '\x7d')) :
    ∃ c2 t2, c :: t = c2 :: t2 ∧ wsChar c2 = false ∧ c2 ≠ ']' ∧ c2 ≠ '\x7d' :=
  ⟨c, t, rfl, h.1, h.2.1, h.2.2⟩

theorem dumpVal_head (d : Nat) (v : Json) :
    ∃ c t, dumpVal d v = c :: t ∧ wsChar c = false ∧ c ≠ ']' ∧ c ≠ '\x7d' := by
  cases v with
  | null => exact head_lit_ok _ (by decide)
  | bool b => cases b <;> exact head_lit_ok _ (by decide)
  | num n =>
    by_cases hn : n < 0
    · have he : dumpVal d (.num n) = '-' :: natRepr n.natAbs := by
        simp [dumpVal, intRepr, hn]
      rw [he]
      exact head_lit_ok _ (by decide)
    · rcases hr : natRepr n.natAbs with _ | ⟨c, t⟩
      · exact absurd hr (natRepr_ne_nil _)
      · have hc : isDigitChar c = true :=
          natRepr_all_digits n.natAbs c (by rw [hr]; simp)
        obtain ⟨_, _, _, _, _, hws, hrb, hcb, _, _⟩ := digit_head_facts hc
        refine ⟨c, t, ?_, hws, hrb, hcb⟩
        simp [dumpVal, intRepr, hn, hr]
  | str s => exact head_lit_ok _ (by decide)
  | arr xs => cases xs <;> exact head_lit_ok _ (by decide)
  | obj kvs =>
    cases kvs with
    | nil => exact head_lit_ok _ (by decide)
    | cons kv kvs =>
      obtain ⟨k, v⟩ := kv
      exact head_lit_ok _ (by decide)

theorem skipWs_dump (d : Nat) (v : Json) (rest : List Char) :
    skipWs (dumpVal d v ++ rest) = dumpVal d v ++ rest := by
  obtain ⟨c, t, he, hws, _, _⟩ := dumpVal_head d v
  rw [he]
  simp only [List.cons_append]
  exact skipWs_cons_neg hws _

theorem dump_head_ne_rb (d : Nat) (v : Json) (rest : List Char) :
    ¬(dumpVal d v ++ rest).head? = some ']' := by
  obtain ⟨c, t, he, _, hrb, _⟩ := dumpVal_head d v
  rw [he]
  simp [hrb]

theorem dump_head_ne_cb (d : Nat) (v : Json) (rest : List Char) :
    ¬(dumpVal d v ++ rest).head? = some '\x7d' := by
  obtain ⟨c, t, he, _, _, hcb⟩ := dumpVal_head d v
  rw [he]
  simp [hcb]

theorem numOk_itemsA_nl (d : Nat) (xs : List Json) (z : List Char) :
    numOk (dumpItemsA d xs ++ ('\n' :: z)) := by
  cases xs with
  | nil => exact ⟨by decide, by decide, by decide, by decide⟩
  | cons x xs =>
    simp only [dumpItemsA, List.cons_append, List.append_assoc]
    exact ⟨by decide, by decide, by decide, by decide⟩

theorem numOk_itemsO_nl (d : Nat) (kvs : List (String × Json)) (z : List Char) :
    numOk (dumpItemsO d kvs ++ ('\n' :: z)) := by
  cases kvs with
  | nil => exact ⟨by decide, by decide, by decide, by decide⟩
  | cons kv kvs =>
    obtain ⟨k, v⟩ := kv
    simp only [dumpItemsO, List.cons_append, List.append_assoc]
    exact ⟨by decide, by decide, by decide, by decide⟩

theorem numOk_itemsA_tail (d : Nat) (xs : List Json) {w : List Char}
    (hw : wsOnly w) (rest : List Char) :
    numOk (dumpItemsA d xs ++ (w ++ (']' :: rest))) := by
  cases xs with
  | nil =>
    simp only [dumpItemsA, List.nil_append]
    cases w with
    | nil => exact ⟨by decide, by decide, by decide, by decide⟩
    | cons c t => exact wsChar_numOk (hw c (by simp)) _
  | cons x xs =>
    simp only [dumpItemsA, List.cons_append, List.append_assoc]
    exact ⟨by decide, by decide, by decide, by decide⟩

theorem numOk_itemsO_tail (d : Nat) (kvs : List (String × Json)) {w : List Char}
    (hw : wsOnly w) (rest : List Char) :
    numOk (dumpItemsO d kvs ++ (w ++ ('\x7d' :: rest))) := by
  cases kvs with
  | nil =>
    simp only [dumpItemsO, List.nil_append]
    cases w with
    | nil => exact ⟨by decide, by decide, by decide, by decide⟩
    | cons c t => exact wsChar_numOk (hw c (by simp)) _
  | cons kv kvs =>
    obtain ⟨k, v⟩ := kv
    simp only [dumpItemsO, List.cons_append, List.append_assoc]
    exact ⟨by decide, by decide, by decide, by decide⟩


/-- Parser correctness statement for `parseVal` at fuel `f`. -/
def PV (f : Nat) : Prop :=
  ∀ v d rest, wfJson v = true → needCore v + 1 ≤ f → numOk rest →
    parseVal f (dumpVal d v ++ rest) = some (v, rest)

/-- Parser correctness statement for `parseCore` at fuel `f`. -/
def PC (f : Nat) : Prop :=
  ∀ v d rest, wfJson v = true → needCore v ≤ f → numOk rest →
    parseCore f (dumpVal d v ++ rest) = some (v, rest)

/-- Parser correctness statement for `parseArrTail` at fuel `f`. -/
def PT (f : Nat) : Prop :=
  ∀ xs d acc w rest, wfItems xs = true → needTailA xs ≤ f → wsOnly w →
    parseArrTail f (dumpItemsA d xs ++ (w ++ (']' :: rest))) acc = some (acc ++ xs, rest)

/-- Parser correctness statement for `parseMember` at fuel `f`. -/
def PM (f : Nat) : Prop :=
  ∀ k v d rest, wfJson v = true → needCore v + 2 ≤ f → numOk rest →
    parseMember f (dumpStr k ++ (':' :: ' ' :: (dumpVal d v ++ rest))) = some ((k, v), rest)

/-- Parser correctness statement for `parseObjTail` at fuel `f`. -/
def PO (f : Nat) : Prop :=
  ∀ kvs d acc w rest, wfMembers kvs = true → needTailO kvs ≤ f → wsOnly w →
    parseObjTail f (dumpItemsO d kvs ++ (w ++ ('\x7d' :: rest))) acc = some (acc ++ kvs, rest)

theorem needCore_pos (v : Json) : 1 ≤ needCore v := by
  cases v with
  | arr xs => cases xs <;> simp [needCore] <;> omega
  | obj kvs =>
    cases kvs with
    | nil => simp [needCore]
    | cons kv kvs => obtain ⟨k, x⟩ := kv; simp [needCore]; omega
  | _ => simp [needCore]

theorem needTailA_pos (xs : List Json) : 1 ≤ needTailA xs := by
  cases xs <;> simp [needTailA] <;> omega

theorem needTailO_pos (kvs : List (String × Json)) : 1 ≤ needTailO kvs := by
  cases kvs with
  | nil => simp [needTailO]
  | cons kv kvs => obtain ⟨k, x⟩ := kv; simp [needTailO]; omega

theorem string_mk_data (s : String) : String.mk s.data = s := rfl

theorem parseMember_ws {w : List Char} (h : wsOnly w) (f : Nat) (cs : List Char) :
    parseMember f (w ++ cs) = parseMember f cs := by
  cases f with
  | zero => rfl
  | succ f => simp only [parseMember, skipWs_append h]

theorem skipWs_dumpStr (k : String) (X : List Char) :
    skipWs (dumpStr k ++ X) = dumpStr k ++ X := by
  simp only [dumpStr, List.cons_append]
  exact skipWs_cons_neg (by decide) _

theorem stepPV (f : Nat) (hC : PC f) : PV (f + 1) := by
  intro v d rest hwf hneed hnum
  rw [parseVal, skipWs_dump]
  exact hC v d rest hwf (by omega) hnum

theorem stepPM (f : Nat) (hV : PV f) : PM (f + 1) := by
  intro k v d rest hwf hneed hnum
  simp only [dumpStr, List.cons_append, List.append_assoc, List.nil_append]
  rw [parseMember, skipWs_cons_neg (by decide)]
  simp only [parseStringBody_esc]
  rw [skipWs_cons_neg (by decide)]
  simp only []
  rw [show (' ' :: (dumpVal d v ++ rest)) = [' '] ++ (dumpVal d v ++ rest) from rfl]
  rw [parseVal_ws (by intro c hc; simp at hc; simp [hc, wsChar])]
  rw [hV v d rest hwf (by omega) hnum]

theorem stepPT (f : Nat) (hV : PV f) (hT : PT f) : PT (f + 1) := by
  intro xs d acc w rest hwf hneed hw
  cases xs with
  | nil =>
    simp only [dumpItemsA, List.nil_append]
    rw [parseArrTail, skipWs_append hw, skipWs_cons_neg (by decide)]
    simp
  | cons y ys =>
    simp only [wfItems, Bool.and_eq_true] at hwf
    simp only [needTailA] at hneed
    simp only [dumpItemsA, List.cons_append, List.append_assoc]
    rw [parseArrTail, skipWs_cons_neg (by decide)]
    simp only []
    rw [show ('\n' :: (spaces (d * 4) ++
          (dumpVal d y ++ (dumpItemsA d ys ++ (w ++ (']' :: rest)))))) =
        ('\n' :: spaces (d * 4)) ++
          (dumpVal d y ++ (dumpItemsA d ys ++ (w ++ (']' :: rest)))) from by simp]
    rw [parseVal_ws (wsOnly_cons (by decide) (spaces_wsOnly _))]
    rw [hV y d _ hwf.1 (by omega) (numOk_itemsA_tail d ys hw rest)]
    simp only []
    rw [hT ys d (acc ++ [y]) w rest hwf.2 (by omega) hw]
    simp

theorem stepPO (f : Nat) (hM : PM f) (hO : PO f) : PO (f + 1) := by
  intro kvs d acc w rest hwf hneed hw
  cases kvs with
  | nil =>
    simp only [dumpItemsO, List.nil_append]
    rw [parseObjTail, skipWs_append hw, skipWs_cons_neg (by decide)]
    simp
  | cons kv kvs =>
    obtain ⟨k, v⟩ := kv
    simp only [wfMembers, Bool.and_eq_true] at hwf
    simp only [needTailO] at hneed
    simp only [dumpItemsO, List.cons_append, List.append_assoc]
    rw [parseObjTail, skipWs_cons_neg (by decide)]
    simp only []
    rw [show ('\n' :: (spaces (d * 4) ++
          (dumpStr k ++ (':' :: ' ' ::
            (dumpVal d v ++ (dumpItemsO d kvs ++ (w ++ ('\x7d' :: rest)))))))) =
        ('\n' :: spaces (d * 4)) ++
          (dumpStr k ++ (':' :: ' ' ::
            (dumpVal d v ++ (dumpItemsO d kvs ++ (w ++ ('\x7d' :: rest)))))) from by simp]
    rw [parseMember_ws (wsOnly_cons (by decide) (spaces_wsOnly _))]
    rw [hM k v d _ hwf.1 (by omega) (numOk_itemsO_tail d kvs hw rest)]
    simp only []
    rw [hO kvs d (acc ++ [(k, v)]) w rest hwf.2 (by omega) hw]
    simp

theorem foldl_dictInsert (kvs : List (String × Json)) :
    ∀ acc, noDupKeys kvs = true →
      (∀ p ∈ kvs, acc.any (fun q => q.1 == p.1) = false) →
      kvs.foldl (fun acc p => dictInsert acc p.1 p.2) acc = acc ++ kvs := by
  induction kvs with
  | nil => intro acc _ _; simp
  | cons kv tl ih =>
    intro acc hnd hacc
    obtain ⟨k, v⟩ := kv
    simp only [noDupKeys, Bool.and_eq_true, Bool.not_eq_true'] at hnd
    simp only [List.foldl_cons]
    have hins : dictInsert acc k v = acc ++ [(k, v)] := by
      unfold dictInsert
      rw [if_neg (by simp [hacc (k, v) (by simp)])]
    rw [hins, ih (acc ++ [(k, v)]) hnd.2 ?_]
    · simp
    · intro p hp
      rw [List.any_append]
      have h1 : acc.any (fun q => q.1 == p.1) = false := hacc p (by simp [hp])
      have h2 : (k == p.1) = false := by
        have := hnd.1
        rw [List.any_eq_false] at this
        have hne := this p hp
        simp only [beq_iff_eq] at hne
        simp only [beq_eq_false_iff_ne]
        exact fun he => hne he.symm
      simp [h1, h2]

theorem dictOfPairs_id {kvs : List (String × Json)} (h : noDupKeys kvs = true) :
    dictOfPairs kvs = kvs := by
  have := foldl_dictInsert kvs [] h (by simp)
  simpa [dictOfPairs] using this


theorem stepPC (f : Nat) (hV : PV f) (hT : PT f) (hM : PM f) (hO : PO f) :
    PC (f + 1) := by
  intro v d rest hwf hneed hnum
  cases v with
  | null =>
    simp only [dumpVal, List.cons_append, List.nil_append]
    rw [parseCore]
    simp [expectChars]
  | bool b =>
    cases b <;>
      (simp only [dumpVal, List.cons_append, List.nil_append]; rw [parseCore];
        simp [expectChars])
  | str s =>
    simp only [dumpVal, dumpStr, List.cons_append, List.append_assoc, List.nil_append]
    rw [parseCore]
    rw [if_neg (by decide), if_neg (by decide), if_neg (by decide), if_pos rfl]
    simp only [parseStringBody_esc]
  | num n =>
    by_cases hn : n < 0
    · have hd : dumpVal d (.num n) = '-' :: natRepr n.natAbs := by
        simp [dumpVal, intRepr, hn]
      rw [hd]
      simp only [List.cons_append]
      rw [parseCore]
      rw [if_neg (by decide), if_neg (by decide), if_neg (by decide), if_neg (by decide),
        if_pos rfl]
      rw [digitSpan_append (natRepr_all_digits _) hnum]
      rcases hr : natRepr n.natAbs with _ | ⟨c, ds⟩
      · exact absurd hr (natRepr_ne_nil _)
      · simp only []
        have h1 : leadZero (c :: ds) = false := by rw [← hr]; exact natRepr_no_leadZero _
        have h2 : numEndBad rest = false := numEndBad_of_numOk hnum
        rw [h1, h2]
        simp only [Bool.or_self, Bool.false_eq_true, if_false]
        have h3 : natOfDs (c :: ds) = n.natAbs := by rw [← hr]; exact natOfDs_natRepr _
        rw [h3]
        have h4 : (-(n.natAbs : Int)) = n := by omega
        rw [h4]
    · have hd : dumpVal d (.num n) = natRepr n.natAbs := by
        simp [dumpVal, intRepr, hn]
      rcases hr : natRepr n.natAbs with _ | ⟨c, ds⟩
      · exact absurd hr (natRepr_ne_nil _)
      · have hcdig : isDigitChar c = true :=
          natRepr_all_digits n.natAbs c (by rw [hr]; simp)
        obtain ⟨hn1, hn2, hn3, hn4, hn5, _, _, _, _, _⟩ := digit_head_facts hcdig
        rw [hd, hr]
        simp only [List.cons_append]
        rw [parseCore]
        rw [if_neg hn1, if_neg hn2, if_neg hn3, if_neg hn4, if_neg hn5, if_pos hcdig]
        have hds : ∀ x ∈ ds, isDigitChar x = true := fun x hx =>
          natRepr_all_digits n.natAbs x (by rw [hr]; simp [hx])
        rw [digitSpan_append hds hnum]
        simp only []
        have h1 : leadZero (c :: ds) = false := by rw [← hr]; exact natRepr_no_leadZero _
        have h2 : numEndBad rest = false := numEndBad_of_numOk hnum
        rw [h1, h2]
        simp only [Bool.or_self, Bool.false_eq_true, if_false]
        have h3 : natOfDs (c :: ds) = n.natAbs := by rw [← hr]; exact natOfDs_natRepr _
        rw [h3]
        have h4 : ((n.natAbs : Int)) = n := by omega
        rw [h4]
  | arr xs =>
    cases xs with
    | nil =>
      simp only [dumpVal, List.cons_append, List.nil_append]
      rw [parseCore]
      rw [if_neg (by decide), if_neg (by decide), if_neg (by decide), if_neg (by decide),
        if_neg (by decide), if_neg (by decide), if_pos rfl]
      rw [skipWs_cons_neg (by decide)]
      simp
    | cons x xs =>
      simp only [wfJson, wfItems, Bool.and_eq_true] at hwf
      simp only [needCore] at hneed
      simp only [dumpVal, List.cons_append, List.append_assoc, List.nil_append]
      rw [parseCore]
      rw [if_neg (by decide), if_neg (by decide), if_neg (by decide), if_neg (by decide),
        if_neg (by decide), if_neg (by decide), if_pos rfl]
      rw [show ('\n' :: (spaces ((d + 1) * 4) ++
            (dumpVal (d + 1) x ++ (dumpItemsA (d + 1) xs ++
              ('\n' :: (spaces (d * 4) ++ (']' :: rest))))))) =
          ('\n' :: spaces ((d + 1) * 4)) ++
            (dumpVal (d + 1) x ++ (dumpItemsA (d + 1) xs ++
              ('\n' :: (spaces (d * 4) ++ (']' :: rest))))) from by simp]
      rw [skipWs_append (wsOnly_cons (by decide) (spaces_wsOnly _)), skipWs_dump]
      rw [if_neg (dump_head_ne_rb _ _ _)]
      rw [parseVal_ws (wsOnly_cons (by decide) (spaces_wsOnly _))]
      rw [hV x (d + 1) _ hwf.1 (by omega) (numOk_itemsA_nl (d + 1) xs _)]
      simp only []
      rw [show ('\n' :: (spaces (d * 4) ++ (']' :: rest))) =
          (('\n' :: spaces (d * 4)) ++ (']' :: rest)) from by simp]
      rw [hT xs (d + 1) [x] ('\n' :: spaces (d * 4)) rest hwf.2 (by omega)
        (wsOnly_cons (by decide) (spaces_wsOnly _))]
      simp
  | obj kvs =>
    cases kvs with
    | nil =>
      simp only [dumpVal, List.cons_append, List.nil_append]
      rw [parseCore]
      rw [if_neg (by decide), if_neg (by decide), if_neg (by decide), if_neg (by decide),
        if_neg (by decide), if_neg (by decide), if_neg (by decide), if_pos rfl]
      rw [skipWs_cons_neg (by decide)]
      simp [dictOfPairs]
    | cons kv kvs =>
      obtain ⟨k, v⟩ := kv
      simp only [wfJson, noDupKeys, wfMembers, Bool.and_eq_true, Bool.not_eq_true'] at hwf
      simp only [needCore] at hneed
      simp only [dumpVal, List.cons_append, List.append_assoc, List.nil_append]
      rw [parseCore]
      rw [if_neg (by decide), if_neg (by decide), if_neg (by decide), if_neg (by decide),
        if_neg (by decide), if_neg (by decide), if_neg (by decide), if_pos rfl]
      rw [show ('\n' :: (spaces ((d + 1) * 4) ++
            (dumpStr k ++ (':' :: ' ' ::
              (dumpVal (d + 1) v ++ (dumpItemsO (d + 1) kvs ++
                ('\n' :: (spaces (d * 4) ++ ('\x7d' :: rest))))))))) =
          ('\n' :: spaces ((d + 1) * 4)) ++
            (dumpStr k ++ (':' :: ' ' ::
              (dumpVal (d + 1) v ++ (dumpItemsO (d + 1) kvs ++
                ('\n' :: (spaces (d * 4) ++ ('\x7d' :: rest))))))) from by simp]
      rw [skipWs_append (wsOnly_cons (by decide) (spaces_wsOnly _)), skipWs_dumpStr]
      rw [if_neg (by simp [dumpStr])]
      rw [parseMember_ws (wsOnly_cons (by decide) (spaces_wsOnly _))]
      rw [hM k v (d + 1) _ hwf.2.1 (by omega) (numOk_itemsO_nl (d + 1) kvs _)]
      simp only []
      rw [show ('\n' :: (spaces (d * 4) ++ ('\x7d' :: rest))) =
          (('\n' :: spaces (d * 4)) ++ ('\x7d' :: rest)) from by simp]
      rw [hO kvs (d + 1) [(k, v)] ('\n' :: spaces (d * 4)) rest hwf.2.2 (by omega)
        (wsOnly_cons (by decide) (spaces_wsOnly _))]
      simp only [List.singleton_append]
      rw [dictOfPairs_id (by simp [noDupKeys, hwf.1, hwf.2.2])]


theorem parse_dump_all : ∀ f, PV f ∧ PC f ∧ PT f ∧ PM f ∧ PO f := by
  intro f
  induction f with
  | zero =>
    refine ⟨?_, ?_, ?_, ?_, ?_⟩
    · intro v d rest _ hneed _
      exact absurd hneed (by have := needCore_pos v; omega)
    · intro v d rest _ hneed _
      exact absurd hneed (by have := needCore_pos v; omega)
    · intro xs d acc w rest _ hneed _
      exact absurd hneed (by have := needTailA_pos xs; omega)
    · intro k v d rest _ hneed _
      exact absurd hneed (by have := needCore_pos v; omega)
    · intro kvs d acc w rest _ hneed _
      exact absurd hneed (by have := needTailO_pos kvs; omega)
  | succ f ih =>
    obtain ⟨hV, hC, hT, hM, hO⟩ := ih
    exact ⟨stepPV f hC, stepPC f hV hT hM hO, stepPT f hV hT, stepPM f hV,
      stepPO f hM hO⟩

theorem natRepr_len_pos (m : Nat) : 1 ≤ (natRepr m).length :=
  List.length_pos.mpr (natRepr_ne_nil m)

mutual

theorem needCore_le_len : ∀ (v : Json) (d : Nat), needCore v ≤ (dumpVal d v).length
  | .null, d => by simp [needCore, dumpVal]
  | .bool b, d => by cases b <;> simp [needCore, dumpVal]
  | .num n, d => by
    have := natRepr_len_pos n.natAbs
    by_cases hn : n < 0 <;> simp [needCore, dumpVal, intRepr, hn] <;> omega
  | .str s, d => by simp [needCore, dumpVal, dumpStr]
  | .arr [], d => by simp [needCore, dumpVal]
  | .arr (x :: xs), d => by
    have h1 := needCore_le_len x (d + 1)
    have h2 := needTailA_le_len xs (d + 1)
    simp [needCore, dumpVal]
    omega
  | .obj [], d => by simp [needCore, dumpVal]
  | .obj ((k, v) :: kvs), d => by
    have h1 := needCore_le_len v (d + 1)
    have h2 := needTailO_le_len kvs (d + 1)
    simp [needCore, dumpVal, dumpStr]
    omega

theorem needTailA_le_len : ∀ (xs : List Json) (d : Nat),
    needTailA xs ≤ (dumpItemsA d xs).length + 1
  | [], d => by simp [needTailA, dumpItemsA]
  | x :: xs, d => by
    have h1 := needCore_le_len x d
    have h2 := needTailA_le_len xs d
    simp [needTailA, dumpItemsA]
    omega

theorem needTailO_le_len : ∀ (kvs : List (String × Json)) (d : Nat),
    needTailO kvs ≤ (dumpItemsO d kvs).length + 1
  | [], d => by simp [needTailO, dumpItemsO]
  | (k, v) :: kvs, d => by
    have h1 := needCore_le_len v d
    have h2 := needTailO_le_len kvs d
    simp [needTailO, dumpItemsO, dumpStr]
    omega

end

/-- Round-trip of the persisted format: parsing back what
`json.dumps(v, indent=4)` produced yields `v` again, for every value that a
Python `dict`-based program can hold (no duplicate object keys). -/
theorem json_loads_dumps {v : Json} (h : wfJson v = true) :
    json_loads (json_dumps v) = some v := by
  unfold json_loads json_dumps
  have hfuel : needCore v + 1 ≤ (dumpVal 0 v).length + 1 := by
    have := needCore_le_len v 0
    omega
  have hp := (parse_dump_all ((dumpVal 0 v).length + 1)).1 v 0 [] h hfuel trivial
  simp only [List.append_nil] at hp
  rw [show (String.mk (dumpVal 0 v)).data = dumpVal 0 v from rfl, hp]
  simp [skipWs]


/-- Text contributed by one page to the pre-strip concatenation. -/
def segText (p : Page) : List Char :=
  if pyStrip p.nativeText ≠ [] then pyStrip p.nativeText else p.ocrText

theorem extractAux_text : ∀ (doc : List Page) (i : Nat),
    (extractAux i doc).1 = (doc.map (fun p => segText p ++ ['\n'])).flatten
  | [], _ => rfl
  | p :: ps, i => by
    simp only [extractAux, List.map_cons, List.flatten_cons]
    rw [← extractAux_text ps (i + 1)]
    by_cases h : pyStrip p.nativeText = [] <;> simp [segText, h]

theorem extractAux_trace_ge : ∀ (doc : List Page) (i j : Nat),
    j ∈ (extractAux i doc).2 → i ≤ j
  | [], _, _, h => by simp [extractAux] at h
  | p :: ps, i, j, h => by
    by_cases hp : pyStrip p.nativeText = []
    · simp only [extractAux, hp, ne_eq, not_true_eq_false, if_false] at h
      rcases List.mem_cons.mp h with rfl | h2
      · exact Nat.le_refl _
      · have := extractAux_trace_ge ps (i + 1) j h2
        omega
    · simp only [extractAux, hp, ne_eq, not_false_eq_true, if_true] at h
      have := extractAux_trace_ge ps (i + 1) j h
      omega

theorem extractAux_count : ∀ (doc : List Page) (i k : Nat) (hk : k < doc.length),
    (extractAux i doc).2.count (i + k) =
      if pyStrip (doc.get ⟨k, hk⟩).nativeText = [] then 1 else 0
  | [], _, k, hk => by simp at hk
  | p :: ps, i, 0, hk => by
    have hlo : ¬ i ∈ (extractAux (i + 1) ps).2 := fun hmem => by
      have := extractAux_trace_ge ps (i + 1) i hmem
      omega
    by_cases hp : pyStrip p.nativeText = [] <;>
      simp [extractAux, hp, List.count_eq_zero.mpr hlo]
  | p :: ps, i, k + 1, hk => by
    have hk2 : k < ps.length := by simpa using hk
    have ih := extractAux_count ps (i + 1) k hk2
    have hne : i ≠ i + (k + 1) := by omega
    have harith : i + 1 + k = i + (k + 1) := by omega
    rw [harith] at ih
    by_cases hp : pyStrip p.nativeText = []
    · simp only [extractAux, hp, ne_eq, not_true_eq_false, if_false]
      rw [List.count_cons_of_ne (fun h => hne h.symm)]
      rw [ih]
      rfl
    · simp only [extractAux, hp, ne_eq, not_false_eq_true, if_true]
      rw [ih]
      rfl

/-- Right strip: drop trailing whitespace. -/
def rstrip (l : List Char) : List Char := (l.reverse.dropWhile pyWsChar).reverse

theorem pyStrip_eq (l : List Char) : pyStrip l = rstrip (l.dropWhile pyWsChar) := rfl

theorem dropWhile_head_false {p : Char → Bool} :
    ∀ (l : List Char) {c : Char} {t : List Char}, l.dropWhile p = c :: t → p c = false := by
  intro l
  induction l with
  | nil => intro c t h; simp at h
  | cons a l ih =>
    intro c t h
    rw [List.dropWhile_cons] at h
    by_cases ha : p a
    · rw [if_pos ha] at h
      exact ih h
    · rw [if_neg ha] at h
      cases h
      simpa using ha

theorem lstrip_noop {l : List Char} (h : ∀ c t, l = c :: t → pyWsChar c = false) :
    l.dropWhile pyWsChar = l := by
  cases l with
  | nil => rfl
  | cons a l => rw [List.dropWhile_cons, if_neg (by simp [h a l rfl])]

theorem rstrip_append {B : List Char} (hB : rstrip B ≠ []) (A : List Char) :
    rstrip (A ++ B) = A ++ rstrip B := by
  unfold rstrip at hB ⊢
  rw [List.reverse_append, List.dropWhile_append]
  have hne : ¬ (B.reverse.dropWhile pyWsChar).isEmpty = true := by
    rw [List.isEmpty_iff]
    intro h
    exact hB (by rw [h]; rfl)
  rw [if_neg hne, List.reverse_append, List.reverse_reverse]

theorem rstrip_head {y : List Char} {c : Char} {t : List Char}
    (h : rstrip y = c :: t) : y.head? = some c := by
  have hpre : rstrip y <+: y := by
    have h1 : (y.reverse.dropWhile pyWsChar).reverse <+: y.reverse.reverse :=
      List.reverse_prefix.mpr (List.dropWhile_suffix pyWsChar)
    rwa [List.reverse_reverse] at h1
  obtain ⟨r, hr⟩ := hpre
  rw [← hr, h]
  rfl

theorem pyStrip_head_false {x : List Char} {c : Char} {t : List Char}
    (h : pyStrip x = c :: t) : pyWsChar c = false := by
  rw [pyStrip_eq] at h
  have h2 := rstrip_head h
  cases hd : x.dropWhile pyWsChar with
  | nil => rw [hd] at h2; simp at h2
  | cons a l =>
    rw [hd] at h2
    simp only [List.head?_cons, Option.some.injEq] at h2
    subst h2
    exact dropWhile_head_false _ hd

theorem pyStrip_last_false {x : List Char} {c : Char} {t : List Char}
    (h : (pyStrip x).reverse = c :: t) : pyWsChar c = false := by
  have he : (pyStrip x).reverse = (x.dropWhile pyWsChar).reverse.dropWhile pyWsChar := by
    rw [pyStrip_eq]
    unfold rstrip
    rw [List.reverse_reverse]
  rw [he] at h
  exact dropWhile_head_false _ h

/-- Segments with non-whitespace first and last characters; any non-empty
`pyStrip` output qualifies. -/
def TrimmedSeg (s : List Char) : Prop :=
  s ≠ [] ∧ (∀ c t, s = c :: t → pyWsChar c = false) ∧
    (∀ c t, s.reverse = c :: t → pyWsChar c = false)

theorem pyStrip_trimmedSeg {x : List Char} (h : pyStrip x ≠ []) :
    TrimmedSeg (pyStrip x) :=
  ⟨h, fun _ _ hc => pyStrip_head_false hc, fun _ _ hc => pyStrip_last_false hc⟩

theorem intercalate_cons₂ (sep : List Char) (a b : List Char) (l : List (List Char)) :
    List.intercalate sep (a :: b :: l) = a ++ sep ++ List.intercalate sep (b :: l) := by
  simp [List.intercalate, List.intersperse]

theorem intercalate_head_ne_nil {b : List Char} (hb : b ≠ []) (sep : List Char)
    (l : List (List Char)) : List.intercalate sep (b :: l) ≠ [] := by
  cases l with
  | nil => simpa [List.intercalate]
  | cons c tl =>
    rw [intercalate_cons₂]
    simp [hb]

theorem trimmed_lstrip_noop {s : List Char} (h : TrimmedSeg s) (z : List Char) :
    (s ++ z).dropWhile pyWsChar = s ++ z := by
  obtain ⟨hne, hhd, _⟩ := h
  cases s with
  | nil => exact absurd rfl hne
  | cons a t =>
    simp only [List.cons_append]
    rw [List.dropWhile_cons, if_neg (by simp [hhd a t rfl])]

theorem strip_single {s : List Char} (h : TrimmedSeg s) :
    pyStrip (s ++ ['\n']) = s := by
  obtain ⟨hne, hhd, hlast⟩ := h
  rw [pyStrip_eq, trimmed_lstrip_noop ⟨hne, hhd, hlast⟩]
  unfold rstrip
  rw [List.reverse_append]
  simp only [List.reverse_cons, List.reverse_nil, List.nil_append, List.singleton_append]
  rw [List.dropWhile_cons, if_pos (by decide)]
  cases hr : s.reverse with
  | nil => simp at hr; exact absurd hr hne
  | cons c t =>
    rw [List.dropWhile_cons, if_neg (by simp [hlast c t hr])]
    rw [← hr, List.reverse_reverse]

theorem strip_join : ∀ (segs : List (List Char)), (∀ s ∈ segs, TrimmedSeg s) →
    pyStrip ((segs.map (fun s => s ++ ['\n'])).flatten) = List.intercalate ['\n'] segs
  | [], _ => by simp [pyStrip, List.intercalate]
  | [s], h => by
    simp only [List.map_cons, List.map_nil, List.flatten_cons, List.flatten_nil,
      List.append_nil]
    rw [strip_single (h s (by simp))]
    simp [List.intercalate]
  | s :: s2 :: tl, h => by
    have hs : TrimmedSeg s := h s (by simp)
    have hs2 : TrimmedSeg s2 := h s2 (by simp)
    have ih := strip_join (s2 :: tl) (fun x hx => h x (by simp [List.mem_cons] at hx ⊢; tauto))
    simp only [List.map_cons, List.flatten_cons] at ih ⊢
    -- the whole text is s ++ '\n' :: rest
    rw [List.append_assoc, List.singleton_append]
    set rest := (List.map (fun s => s ++ ['\n']) tl).flatten with hrest
    -- left strip is a no-op on the whole and on the tail
    have hlstrip_tail : ((s2 ++ ['\n']) ++ rest).dropWhile pyWsChar = (s2 ++ ['\n']) ++ rest := by
      rw [List.append_assoc, List.singleton_append]
      exact trimmed_lstrip_noop hs2 _
    have hrtail : rstrip ((s2 ++ ['\n']) ++ rest) = List.intercalate ['\n'] (s2 :: tl) := by
      rw [← ih, pyStrip_eq, hlstrip_tail]
    have hrne : rstrip ((s2 ++ ['\n']) ++ rest) ≠ [] := by
      rw [hrtail]
      exact intercalate_head_ne_nil hs2.1 _ _
    rw [pyStrip_eq, trimmed_lstrip_noop hs]
    rw [show ('\n' :: ((s2 ++ ['\n']) ++ rest)) = ['\n'] ++ ((s2 ++ ['\n']) ++ rest) from rfl]
    rw [← List.append_assoc]
    rw [rstrip_append hrne (s ++ ['\n'])]
    rw [hrtail, intercalate_cons₂]

/-- C6: for every input text, when no credential is configured (the key is
absent or empty, hence falsy to `if not client.api_key:`), `analyze`
returns the `No API key provided` error value and performs zero outbound
calls to the service. -/
theorem C6_no_key_no_call (apiKey : Option String)
    (svc : ChatRequest → Except PyExc String) (text : String)
    (h : pyFalsyKey apiKey = true) :
    analyze_lab_report apiKey svc text = (.ok noKeyJson, []) := by
  simp [analyze_lab_report, h]

/-- C6 witness: with no key configured and a service stub that would raise,
the result is the error value and the call trace is empty. -/
theorem C6_witness :
    analyze_lab_report none (fun _ => .error .openaiError) "text" = (.ok noKeyJson, []) :=
  C6_no_key_no_call none (fun _ => .error .openaiError) "text" rfl

/-- C2 counterexample: with a configured key and a service call that
raises, `analyze_lab_report` propagates the exception instead of returning
an `error`-shaped value — `client.chat.completions.create` sits outside the
`try`, so the claim that every failure mode is returned as a value fails. -/
theorem C2_counterexample :
    (analyze_lab_report (some "k") (fun _ => .error .openaiError) "").1 =
        .error .openaiError ∧
      ∀ v : Json,
        (analyze_lab_report (some "k") (fun _ => .error .openaiError) "").1 ≠ .ok v := by
  refine ⟨rfl, fun v h => ?_⟩
  rw [show (analyze_lab_report (some "k") (fun _ => .error .openaiError) "").1 =
      Except.error PyExc.openaiError from rfl] at h
  exact Except.noConfusion h

/-- C2 amended: `analyze` returns a value — never an exception — whenever
the external service call itself does not raise; the missing-credential and
unparsable-reply failures come back as the typed error values.  A failure
of the service call itself, by contrast, propagates to the caller. -/
theorem C2_amended (apiKey : Option String)
    (svc : ChatRequest → Except PyExc String) (text : String)
    (hsvc : ∀ q, ∃ r, svc q = .ok r) :
    ∃ v : Json, (analyze_lab_report apiKey svc text).1 = .ok v ∧
      (pyFalsyKey apiKey = true → v = noKeyJson) ∧
      (∀ r, svc (analyzeReq text) = .ok r → json_loads r = none →
        pyFalsyKey apiKey = false → v = parseFailJson r) := by
  by_cases hk : pyFalsyKey apiKey = true
  · refine ⟨noKeyJson, by simp [analyze_lab_report, hk], fun _ => rfl, ?_⟩
    intro r _ _ hkf
    rw [hk] at hkf
    cases hkf
  · have hkf : pyFalsyKey apiKey = false := by simpa using hk
    obtain ⟨r, hr⟩ := hsvc (analyzeReq text)
    rcases hl : json_loads r with _ | v
    · refine ⟨parseFailJson r, by simp [analyze_lab_report, hkf, hr, hl], ?_, ?_⟩
      · intro hkt
        rw [hkt] at hkf
        cases hkf
      · intro r2 hr2 _ _
        rw [hr] at hr2
        cases hr2
        rfl
    · refine ⟨v, by simp [analyze_lab_report, hkf, hr, hl], ?_, ?_⟩
      · intro hkt
        rw [hkt] at hkf
        cases hkf
      · intro r2 hr2 hl2 _
        rw [hr] at hr2
        cases hr2
        rw [hl] at hl2
        cases hl2

/-- C2 witness: concrete no-raise instance of the amended theorem. -/
theorem C2_witness :
    ∃ v : Json, (analyze_lab_report none (fun _ => .ok "x") "").1 = .ok v ∧
      (pyFalsyKey none = true → v = noKeyJson) ∧
      (∀ r, (fun (_ : ChatRequest) => Except.ok (ε := PyExc) "x") (analyzeReq "") = .ok r →
        json_loads r = none → pyFalsyKey none = false → v = parseFailJson r) :=
  C2_amended none (fun _ => .ok "x") "" (fun _ => ⟨"x", rfl⟩)

/-- C3 counterexample: the reply `"42"` is valid JSON that does not match
the success shape, yet `analyze` returns the parsed number unchanged rather
than the claimed `Failed to parse GPT JSON` value — the code performs no
shape validation. -/
theorem C3_counterexample :
    (analyze_lab_report (some "k") (fun _ => .ok "42") "").1 = .ok (Json.num 42) ∧
      specSuccessShape (Json.num 42) = false ∧
      Json.num 42 ≠ parseFailJson "42" :=
  ⟨rfl, rfl, fun h => Json.noConfusion h⟩

/-- C3 amended: a reply that does not parse as JSON yields the
`Failed to parse GPT JSON` value with the raw reply preserved; a reply that
parses as any JSON value — matching the success shape or not — is returned
unchanged. -/
theorem C3_amended (apiKey : Option String)
    (svc : ChatRequest → Except PyExc String) (text reply : String)
    (hk : pyFalsyKey apiKey = false) (hr : svc (analyzeReq text) = .ok reply) :
    (json_loads reply = none →
      (analyze_lab_report apiKey svc text).1 = .ok (parseFailJson reply)) ∧
    (∀ v, json_loads reply = some v →
      (analyze_lab_report apiKey svc text).1 = .ok v) := by
  constructor
  · intro hl
    simp [analyze_lab_report, hk, hr, hl]
  · intro v hl
    simp [analyze_lab_report, hk, hr, hl]

/-- C3 witness: the unparsable reply `not json` produces the parse-failure
value with the raw reply preserved. -/
theorem C3_witness :
    (analyze_lab_report (some "k") (fun _ => .ok "not json") "").1 =
      .ok (parseFailJson "not json") :=
  (C3_amended (some "k") (fun _ => .ok "not json") "" "not json" rfl rfl).1 rfl

/-- C8 counterexample: content `42` is valid JSON that is not the stored
shape (an array of records), yet `load_reports` returns it without any
failure — the claim that such content fails with the decode error is
false. -/
theorem C8_counterexample :
    load_reports (some "42") = .ok (Json.num 42) ∧
      specStoreShape (Json.num 42) = false :=
  ⟨rfl, rfl⟩

/-- C8 amended: a missing store loads as the empty sequence; existing
content fails — with the propagated JSON decode error, never silently
replaced by an empty store — exactly when it is not parseable JSON, and
any parseable content is returned as-is without shape validation. -/
theorem C8_amended :
    load_reports none = .ok (Json.arr []) ∧
      (∀ s, json_loads s = none → load_reports (some s) = .error .jsonDecodeError) ∧
      (∀ s v, json_loads s = some v → load_reports (some s) = .ok v) := by
  refine ⟨rfl, ?_, ?_⟩
  · intro s hs
    simp [load_reports, hs]
  · intro s v hs
    simp [load_reports, hs]

/-- C8 witness: unparsable content propagates the decode error; parseable
content is returned. -/
theorem C8_witness :
    load_reports (some "\x7b") = .error .jsonDecodeError ∧
      load_reports (some "[]") = .ok (Json.arr []) :=
  ⟨C8_amended.2.1 "\x7b" rfl, C8_amended.2.2 "[]" (Json.arr []) rfl⟩

/-- C7: the append-save-load round trip law: saving the store with a record
appended and loading it back yields exactly the original records plus the
new record at index `l.length` (0-based), with every previously stored
record unchanged at its index.  The hypothesis states that the store is a
Python value (no duplicate keys inside any object). -/
theorem C7_roundtrip (l : List Json) (r : Json)
    (hwf : wfJson (Json.arr (l ++ [r])) = true) :
    load_reports (save_reports (Json.arr (l ++ [r]))) = .ok (Json.arr (l ++ [r])) ∧
      (l ++ [r])[l.length]? = some r ∧
      (∀ i, i < l.length → (l ++ [r])[i]? = l[i]?) := by
  refine ⟨?_, ?_, ?_⟩
  · simp [load_reports, save_reports, json_loads_dumps hwf]
  · simp
  · intro i hi
    exact List.getElem?_append_left hi

/-- C7 witness: concrete round trip of one record on an empty store. -/
theorem C7_witness :
    load_reports (save_reports (Json.arr ([] ++ [mkRecord "ts" "f.pdf" noKeyJson]))) =
        .ok (Json.arr ([] ++ [mkRecord "ts" "f.pdf" noKeyJson])) ∧
      ([] ++ [mkRecord "ts" "f.pdf" noKeyJson])[List.length ([] : List Json)]? =
        some (mkRecord "ts" "f.pdf" noKeyJson) ∧
      (∀ i, i < List.length ([] : List Json) →
        ([] ++ [mkRecord "ts" "f.pdf" noKeyJson])[i]? = ([] : List Json)[i]?) :=
  C7_roundtrip [] (mkRecord "ts" "f.pdf" noKeyJson) rfl

/-- C4 counterexample: for pages with native text `a␣` and `b` (both
non-empty, also after trimming), the code yields `a\nb` because each page's
text is stripped before concatenation, while the claimed formula — the
pages' native text joined by newlines with only the final result trimmed —
yields `a␣\nb`. -/
theorem C4_counterexample :
    (extract_text_from_pdf [⟨['a', ' '], []⟩, ⟨['b'], []⟩]).1 = ['a', '\n', 'b'] ∧
      pyStrip (['a', ' '] ++ '\n' :: ['b']) = ['a', ' ', '\n', 'b'] ∧
      ['a', '\n', 'b'] ≠ ['a', ' ', '\n', 'b'] :=
  ⟨rfl, rfl, by decide⟩

/-- C4 amended: for a document whose every page's stripped native text is
non-empty, extraction returns those stripped page texts concatenated in
document order with single newline separators (so the final trim is a
no-op), and a zero-page document yields the empty string without failing. -/
theorem C4_amended (doc : List Page)
    (h : ∀ p ∈ doc, pyStrip p.nativeText ≠ []) :
    (extract_text_from_pdf doc).1 =
        List.intercalate ['\n'] (doc.map (fun p => pyStrip p.nativeText)) ∧
      extract_text_from_pdf [] = ([], []) := by
  refine ⟨?_, rfl⟩
  show pyStrip (extractAux 0 doc).1 = _
  rw [extractAux_text]
  have hmaps : doc.map (fun p => segText p ++ ['\n']) =
      (doc.map fun p => pyStrip p.nativeText).map (fun s => s ++ ['\n']) := by
    rw [List.map_map]
    exact List.map_congr_left (fun p hp => by simp [segText, h p hp, Function.comp])
  rw [hmaps]
  exact strip_join _ (fun s hs => by
    obtain ⟨p, hp, rfl⟩ := List.mem_map.mp hs
    exact pyStrip_trimmedSeg (h p hp))

/-- C4 witness: a two-page document with already-trimmed native text. -/
theorem C4_witness :
    (extract_text_from_pdf [⟨['a'], []⟩, ⟨['b'], []⟩]).1 =
        List.intercalate ['\n']
          ([⟨['a'], []⟩, ⟨['b'], []⟩].map (fun p : Page => pyStrip p.nativeText)) ∧
      extract_text_from_pdf [] = ([], []) :=
  C4_amended [⟨['a'], []⟩, ⟨['b'], []⟩]
    (by intro p hp
        simp only [List.mem_cons, List.not_mem_nil, or_false] at hp
        rcases hp with rfl | rfl <;> decide)

/-- C5: recognition is invoked exactly once for a page whose stripped
native text is empty and never for a page with non-empty stripped native
text; the final text is the strip of the in-order concatenation of page
segments, where an OCR-fallback page contributes its (possibly empty)
recognition output at its own position. -/
theorem C5_ocr_per_page (doc : List Page) (k : Nat) (hk : k < doc.length) :
    (pyStrip (doc.get ⟨k, hk⟩).nativeText = [] →
        (extract_text_from_pdf doc).2.count k = 1 ∧
        segText (doc.get ⟨k, hk⟩) = (doc.get ⟨k, hk⟩).ocrText) ∧
      (pyStrip (doc.get ⟨k, hk⟩).nativeText ≠ [] →
        (extract_text_from_pdf doc).2.count k = 0) ∧
      (extract_text_from_pdf doc).1 =
        pyStrip ((doc.map (fun p => segText p ++ ['\n'])).flatten) := by
  have hc := extractAux_count doc 0 k hk
  simp only [Nat.zero_add] at hc
  refine ⟨?_, ?_, ?_⟩
  · intro he
    constructor
    · show (extractAux 0 doc).2.count k = 1
      rw [hc, if_pos he]
    · simp only [segText, he, ne_eq, not_true_eq_false, if_false]
  · intro he
    show (extractAux 0 doc).2.count k = 0
    rw [hc, if_neg he]
  · show pyStrip (extractAux 0 doc).1 = _
    rw [extractAux_text]

/-- C5 witness: a one-page document with whitespace-only native text OCRs
exactly that page and uses its recognition output. -/
theorem C5_witness :
    (pyStrip (([⟨[' '], ['o']⟩] : List Page).get ⟨0, by decide⟩).nativeText = [] →
        (extract_text_from_pdf [⟨[' '], ['o']⟩]).2.count 0 = 1 ∧
        segText (([⟨[' '], ['o']⟩] : List Page).get ⟨0, by decide⟩) =
          (([⟨[' '], ['o']⟩] : List Page).get ⟨0, by decide⟩).ocrText) ∧
      (pyStrip (([⟨[' '], ['o']⟩] : List Page).get ⟨0, by decide⟩).nativeText ≠ [] →
        (extract_text_from_pdf [⟨[' '], ['o']⟩]).2.count 0 = 0) ∧
      (extract_text_from_pdf [⟨[' '], ['o']⟩]).1 =
        pyStrip ((([⟨[' '], ['o']⟩] : List Page).map
          (fun p => segText p ++ ['\n'])).flatten) :=
  C5_ocr_per_page [⟨[' '], ['o']⟩] 0 (by decide)

/-- C9: with a store that loads as a sequence of records, the record fetch
of the `download` route answers the `Invalid report index` rejection
exactly when the index is negative or at least the store length, and on a
non-empty store index `0` succeeds with the first-appended record. -/
theorem C9_bounds (fs : Option String) (l : List Json) (index : Int)
    (hload : load_reports fs = .ok (Json.arr l)) :
    ((renderableView fs index).1 = .ok .invalidIndex ↔
      index < 0 ∨ (l.length : Int) ≤ index) ∧
    (∀ r0 tl, l = r0 :: tl → (renderableView fs 0).1 = .ok (.record r0)) := by
  constructor
  · unfold renderableView
    rw [hload]
    simp only [pyLen]
    by_cases hb : index < 0 ∨ (l.length : Int) ≤ index
    · simp [hb]
    · rw [if_neg hb]
      push_neg at hb
      have hj : (if index < 0 then index + l.length else index) = index := by
        rw [if_neg (by omega)]
      constructor
      · intro h
        rw [show pySubscriptInt (Json.arr l) index =
            .ok (l.getD index.toNat Json.null) from by
          simp only [pySubscriptInt, hj]
          rw [if_pos ⟨by omega, by omega⟩]] at h
        simp at h
      · intro h
        exact absurd h (by omega)
  · intro r0 tl hl
    subst hl
    unfold renderableView
    rw [hload]
    simp only [pyLen]
    rw [if_neg (by simp only [List.length_cons]; omega)]
    have hsub : pySubscriptInt (Json.arr (r0 :: tl)) 0 = .ok r0 := by
      unfold pySubscriptInt
      norm_num
    rw [hsub]

/-- C9 witness: on the one-record store `[1]`, indices `-1` and `1` are
rejected and index `0` fetches the record. -/
theorem C9_witness :
    (renderableView (some "[1]") (-1)).1 = .ok .invalidIndex ∧
      (renderableView (some "[1]") 1).1 = .ok .invalidIndex ∧
      (renderableView (some "[1]") 0).1 = .ok (.record (Json.num 1)) :=
  ⟨(C9_bounds (some "[1]") [Json.num 1] (-1) rfl).1.mpr (Or.inl (by norm_num)),
   (C9_bounds (some "[1]") [Json.num 1] 1 rfl).1.mpr (Or.inr (by norm_num)),
   (C9_bounds (some "[1]") [Json.num 1] 0 rfl).2 (Json.num 1) [] rfl⟩

/-- C10: the `download` route never modifies the persisted store: the data
file after the call equals the data file before it, on the rejection path,
the success path, and every exception path alike (no branch writes). -/
theorem C10_download_pure (fs : Option String) (index : Int) :
    (download fs index).2 = fs ∧ (renderableView fs index).2 = fs := by
  have hr : (renderableView fs index).2 = fs := by
    unfold renderableView
    split
    · rfl
    · split
      · rfl
      · split
        · rfl
        · split <;> rfl
  exact ⟨by unfold download; exact hr, hr⟩

end LabApp
namespace LabApp

/-- C1 counterexample, three parts.  (i) With text extracted and a service
call that raises, `upload` appends nothing and the exception escapes, so
the unconditional "appends exactly one record" fails.  (ii) With a corrupt
store the decode error escapes and nothing is appended.  (iii) A failure
outcome is answered as the `Analysis failed` wrapper around the outcome,
not as the outcome itself. -/
theorem C1_counterexample :
    ((upload "t" (some "k") (fun _ => .error .openaiError) "f.pdf" "ts" none).fs = none ∧
      (upload "t" (some "k") (fun _ => .error .openaiError) "f.pdf" "ts" none).response =
        .error .openaiError) ∧
    ((upload "" none (fun _ => .ok "") "f.pdf" "ts" (some "\x7b")).fs = some "\x7b" ∧
      (upload "" none (fun _ => .ok "") "f.pdf" "ts" (some "\x7b")).response =
        .error .jsonDecodeError) ∧
    ((upload "" none (fun _ => .ok "") "f.pdf" "ts" none).response =
        .ok (Json.obj [("error", Json.str "Analysis failed"), ("raw", noKeyJson)]) ∧
      Json.obj [("error", Json.str "Analysis failed"), ("raw", noKeyJson)] ≠ noKeyJson) := by
  refine ⟨⟨rfl, rfl⟩, ⟨rfl, rfl⟩, rfl, ?_⟩
  intro h
  rw [noKeyJson] at h
  have := (Json.obj.injEq _ _).mp h
  simp at this

/-- C1 amended: whenever extraction succeeded (its text is given), the
analysis step returned an outcome rather than raising, and the persisted
store is absent or holds a valid JSON array, `upload` persists the previous
records plus exactly one new record holding the given filename and the
analysis outcome (at index `l.length`), answers the outcome itself when it
has a `results` key and the `Analysis failed` wrapper around that same
outcome otherwise, and — when the resulting store is a Python value —
parsing the persisted file back yields the appended store, the new record
at its index. -/
theorem C1_amended (text : String) (apiKey : Option String)
    (svc : ChatRequest → Except PyExc String) (fileName now : String)
    (fs : Option String) (l : List Json) (a : Json)
    (hload : load_reports fs = .ok (Json.arr l))
    (ha : (analyze_lab_report apiKey svc text).1 = .ok a) :
    (upload text apiKey svc fileName now fs).fs =
        save_reports (Json.arr (l ++ [mkRecord now fileName a])) ∧
      (∀ b, pyIn "results" a = .ok b →
        (upload text apiKey svc fileName now fs).response =
          .ok (if b then a
               else Json.obj [("error", Json.str "Analysis failed"), ("raw", a)])) ∧
      (wfJson (Json.arr (l ++ [mkRecord now fileName a])) = true →
        load_reports (upload text apiKey svc fileName now fs).fs =
            .ok (Json.arr (l ++ [mkRecord now fileName a])) ∧
          (l ++ [mkRecord now fileName a])[l.length]? = some (mkRecord now fileName a)) := by
  have hu : upload text apiKey svc fileName now fs =
      ⟨save_reports (Json.arr (l ++ [mkRecord now fileName a])),
        (analyze_lab_report apiKey svc text).2,
        match pyIn "results" a with
        | .error e => .error e
        | .ok true => .ok a
        | .ok false =>
          .ok (Json.obj [("error", Json.str "Analysis failed"), ("raw", a)])⟩ := by
    unfold upload
    dsimp only
    rw [ha, hload]
    rcases hpy : pyIn "results" a with e | b
    · simp [hpy]
    · cases b <;> simp [hpy]
  refine ⟨by rw [hu], ?_, ?_⟩
  · intro b hb
    rw [hu]
    cases b <;> simp [hb]
  · intro hwf
    refine ⟨?_, by simp⟩
    rw [hu]
    show load_reports (save_reports _) = _
    simp [load_reports, save_reports, json_loads_dumps hwf]

/-- C1 witness: the end-to-end instance of the claim — empty extracted
text, no credential, initially empty store.  The persisted store parses
back as exactly one record at index 0 whose `analysis` is the
`No API key provided` value, and the response wraps that same outcome. -/
theorem C1_witness :
    (upload "" none (fun _ => .ok "") "report.pdf" "2024-01-01 00:00:00" none).fs =
        save_reports (Json.arr ([] ++ [mkRecord "2024-01-01 00:00:00" "report.pdf" noKeyJson])) ∧
      (∀ b, pyIn "results" noKeyJson = .ok b →
        (upload "" none (fun _ => .ok "") "report.pdf" "2024-01-01 00:00:00" none).response =
          .ok (if b then noKeyJson
               else Json.obj [("error", Json.str "Analysis failed"), ("raw", noKeyJson)])) ∧
      (wfJson (Json.arr ([] ++ [mkRecord "2024-01-01 00:00:00" "report.pdf" noKeyJson])) = true →
        load_reports (upload "" none (fun _ => .ok "") "report.pdf" "2024-01-01 00:00:00" none).fs =
            .ok (Json.arr ([] ++ [mkRecord "2024-01-01 00:00:00" "report.pdf" noKeyJson])) ∧
          ([] ++ [mkRecord "2024-01-01 00:00:00" "report.pdf" noKeyJson])[List.length ([] : List Json)]? =
            some (mkRecord "2024-01-01 00:00:00" "report.pdf" noKeyJson)) :=
  C1_amended "" none (fun _ => .ok "") "report.pdf" "2024-01-01 00:00:00" none [] noKeyJson
    rfl rfl

end LabApp
